import Mathlib

/-!
# team-metrics: series builder, chart assembly, row conversion, refresh and serving

A shallow embedding of `team.go` and `main.go`.

* Go values of type `float64` are only stored, copied and converted from and to
  `int64` by this program; they are modelled by `Float64` below.
* `time.Time` is modelled by its Unix second count together with a location.
* Library calls whose text is not part of the repository (`strconv.ParseFloat`,
  the Sheets client, the SVG renderer, `Time.String`) are parameters;
  `time.Parse` for the one layout used, `time.Unix`, the calendar methods of
  `Time` and `drawing.ColorFromHex` are written out.
* A Go function that may return an error or panic returns `Except Abort _`.
-/

namespace TeamMetrics

/-! ## Library values -/

/-- A `float64` value. Finite values are kept as the exact rational they denote
(positive and negative zero are not distinguished); the program never does
arithmetic on them. -/
inductive Float64 where
  | fin (q : ℚ)
  | posInf
  | negInf
  | nan
  deriving DecidableEq

/-- The conversion `float64(n)` of an `int64`: exact below `2^53` in magnitude,
round-to-nearest-even at 53 significant bits above. -/
def float64OfInt64 (n : Int) : Float64 :=
  let a := n.natAbs
  if a < 2 ^ 53 then .fin n
  else
    let s := Nat.log2 a - 52
    let q := a / 2 ^ s
    let r := a % 2 ^ s
    let h := 2 ^ (s - 1)
    let q1 := if h < r ∨ (r = h ∧ q % 2 = 1) then q + 1 else q
    .fin (Int.sign n * ((q1 * 2 ^ s : Nat) : Int))

/-- The conversion `int64(f)` of a `float64`: truncation toward zero; values
outside the `int64` range and the non-finite values give the amd64 result
`-2^63`. -/
def int64OfFloat64 : Float64 → Int
  | .fin q =>
    let t := if 0 ≤ q then Rat.floor q else Rat.ceil q
    if -(2 ^ 63) ≤ t ∧ t < 2 ^ 63 then t else -(2 ^ 63)
  | _ => -(2 ^ 63)

/-- A time zone: the offset east of UTC, in seconds, in force at a Unix instant. -/
structure Location where
  offset : Int → Int

/-- The zone `time.UTC`. -/
def UTC : Location := ⟨fun _ => 0⟩

/-- A `time.Time`, to the second: seconds since 1970-01-01T00:00:00Z and the
location used for presentation. -/
structure Time where
  sec : Int
  loc : Location

/-- Method `Time.Unix`. -/
def Time.Unix (t : Time) : Int := t.sec

/-- Function `time.Unix(sec, 0)`: the instant, presented in the local zone of the process. -/
def timeUnix (tzLocal : Location) (sec : Int) : Time := ⟨sec, tzLocal⟩

/-- Days since 1970-01-01 of a proleptic Gregorian date. -/
def daysFromCivil (y m d : Int) : Int :=
  let y1 := if m ≤ 2 then y - 1 else y
  let era := y1 / 400
  let yoe := y1 - era * 400
  let mp := (m + 9) % 12
  let doy := (153 * mp + 2) / 5 + d - 1
  let doe := yoe * 365 + yoe / 4 - yoe / 100 + doy
  era * 146097 + doe - 719468

/-- The proleptic Gregorian date (year, month, day) of a day count since 1970-01-01. -/
def civilFromDays (z : Int) : Int × Int × Int :=
  let z1 := z + 719468
  let era := z1 / 146097
  let doe := z1 - era * 146097
  let yoe := (doe - doe / 1460 + doe / 36524 - doe / 146096) / 365
  let doy := doe - (365 * yoe + yoe / 4 - yoe / 100)
  let mp := (5 * doy + 2) / 153
  let d := doy - (153 * mp + 2) / 5 + 1
  let m := if mp < 10 then mp + 3 else mp - 9
  (if m ≤ 2 then yoe + era * 400 + 1 else yoe + era * 400, m, d)

/-- Days from 1 January of the year -292277022399, the zero of the absolute
seconds of package `time`, to 1970-01-01. -/
def absoluteDays : Int := 106751991073094

/-- Method `Time.abs`: the seconds since the absolute zero, in the location of
the time, as the `uint64` the `int64` sum converts to. -/
def Time.abs (t : Time) : Int :=
  (t.sec + t.loc.offset t.sec + absoluteDays * 86400) % 18446744073709551616

/-- The calendar date a `Time` shows in its own location, computed from its
absolute seconds. -/
def Time.civil (t : Time) : Int × Int × Int :=
  civilFromDays (t.abs / 86400 - absoluteDays)

/-- Method `Time.Year`. -/
def Time.Year (t : Time) : Int := t.civil.1

/-- Method `Time.Month`, as its number 1..12. -/
def Time.Month (t : Time) : Int := t.civil.2.1

/-- Method `Time.Day`. -/
def Time.Day (t : Time) : Int := t.civil.2.2

/-- Whether a year is a leap year. -/
def isLeap (y : Int) : Bool := y % 4 = 0 ∧ (y % 100 ≠ 0 ∨ y % 400 = 0)

/-- Number of days of a month of a year. -/
def daysIn (m y : Int) : Int :=
  if m = 2 then (if isLeap y then 29 else 28)
  else if m = 4 ∨ m = 6 ∨ m = 9 ∨ m = 11 then 30 else 31

/-- Midnight UTC of a calendar date, as `time.Date(y, m, d, 0, 0, 0, 0, time.UTC)`. -/
def midnightUTC (y m d : Int) : Time := ⟨daysFromCivil y m d * 86400, UTC⟩

/-- Value of a decimal digit character. -/
def digitVal (c : Char) : Int := (c.toNat : Int) - 48

/-- Call `time.Parse("2006-01-02", s)`: four digits, a dash, two digits, a dash,
two digits and nothing else, naming an existing day; the result is midnight UTC. -/
def timeParse (s : String) : Except String Time :=
  match s.toList with
  | [y1, y2, y3, y4, '-', m1, m2, '-', d1, d2] =>
    if y1.isDigit ∧ y2.isDigit ∧ y3.isDigit ∧ y4.isDigit ∧ m1.isDigit ∧ m2.isDigit
        ∧ d1.isDigit ∧ d2.isDigit then
      let y := digitVal y1 * 1000 + digitVal y2 * 100 + digitVal y3 * 10 + digitVal y4
      let m := digitVal m1 * 10 + digitVal m2
      let d := digitVal d1 * 10 + digitVal d2
      if m < 1 ∨ 12 < m then .error "month out of range"
      else if d < 1 ∨ daysIn m y < d then .error "day out of range"
      else .ok (midnightUTC y m d)
    else .error "cannot parse"
  | _ => .error "cannot parse"

/-- An RGBA colour of the drawing package. -/
structure Color where
  R : Nat
  G : Nat
  B : Nat
  A : Nat
  deriving DecidableEq

/-- Value of a hexadecimal digit, 0 when it is none. -/
def hexVal (c : Char) : Nat :=
  if '0' ≤ c ∧ c ≤ '9' then c.toNat - 48
  else if 'a' ≤ c ∧ c ≤ 'f' then c.toNat - 87
  else if 'A' ≤ c ∧ c ≤ 'F' then c.toNat - 55
  else 0

/-- Function `drawing.ColorFromHex` on a string of six hexadecimal digits (of
three digits, each digit is doubled); alpha is 255. Other strings are not
modelled and give black. -/
def ColorFromHex (hex : String) : Color :=
  match hex.toList with
  | [a, b, c] => ⟨hexVal a * 17, hexVal b * 17, hexVal c * 17, 255⟩
  | [a, b, c, d, e, f] =>
    ⟨hexVal a * 16 + hexVal b, hexVal c * 16 + hexVal d, hexVal e * 16 + hexVal f, 255⟩
  | _ => ⟨0, 0, 0, 255⟩

/-! ## team.go -/

/-- One observation (struct `teamData`). -/
structure teamData where
  date : Time
  cycleTime : Float64
  throughput : Float64
  comment : String

/-- A team and its observations (struct `team`). -/
structure team where
  name : String
  data : List teamData

/-- Constructor `newTeam`: the name is set and the data is empty. -/
def newTeam (name : String) : team := ⟨name, []⟩

/-- A labelled point (`chart.Value2`). -/
structure Value2 where
  XValue : Float64
  YValue : Float64
  Label : String
  deriving DecidableEq

/-- The fields of `chart.Style` the program sets; a field left out of a Go
literal has its zero value. -/
structure Style where
  ClassName : String
  StrokeColor : Color
  StrokeWidth : Float64
  deriving DecidableEq

/-- The two kinds of `chart.Series` the program builds. -/
inductive Series where
  | ContinuousSeries (Name : String) (style : Style) (XValues YValues : List Float64)
  | AnnotationSeries (Annotations : List Value2)
  deriving DecidableEq

/-- A dynamically typed Go value (`interface{}`), as far as the program sees one. -/
inductive Any where
  | str (s : String)
  | float64 (f : Float64)
  | bool (b : Bool)
  | nil
  deriving DecidableEq

/-- How a Go call leaves other than by returning a value: with a non-nil
`error`, or by panicking. -/
inductive Abort where
  | error (msg : String)
  | panic (msg : String)
  deriving DecidableEq

deriving instance DecidableEq for Except

/-- The fields of `chart.XAxis` the program sets. -/
structure XAxis where
  Name : String
  TickPositionBetweenTicks : Bool
  ValueFormatter : Any → Except Abort String

/-- The entries of `Chart.Elements`. -/
inductive Renderable where
  | Legend
  deriving DecidableEq

/-- The fields of `chart.Chart` the program sets. -/
structure Chart where
  Background : Style
  Canvas : Style
  XAxis : XAxis
  Series : List Series
  Elements : List Renderable

/-- The four slices the loop of `renderer` appends to. -/
structure Slices where
  xval : List Float64
  cycleYval : List Float64
  throughputYval : List Float64
  comments : List Value2
  deriving DecidableEq

/-- One iteration of the loop of `renderer` (team.go lines 30-45). -/
def rendererStep (acc : Slices) (d : teamData) : Slices :=
  let date := float64OfInt64 d.date.Unix
  let xval := acc.xval ++ [date]
  let cycleYval := acc.cycleYval ++ [d.cycleTime]
  let throughputYval := acc.throughputYval ++ [d.throughput]
  if d.comment ≠ "" then
    let comments := acc.comments ++ [⟨date, d.cycleTime, d.comment⟩]
    let comments := comments ++ [⟨date, d.throughput, d.comment⟩]
    ⟨xval, cycleYval, throughputYval, comments⟩
  else
    ⟨xval, cycleYval, throughputYval, acc.comments⟩

/-- The loop of `renderer` (team.go lines 24-46), from four empty slices. -/
def team.slices (t : team) : Slices :=
  t.data.foldl rendererStep ⟨[], [], [], []⟩

/-- The closure `XAxis.ValueFormatter` of `renderer` (team.go lines 56-60); the
process's local zone is the one `time.Unix` presents the instant in. -/
def valueFormatter (tzLocal : Location) (v : Any) : Except Abort String :=
  match v with
  | .float64 typed =>
    let typedDate := timeUnix tzLocal (int64OfFloat64 typed)
    .ok (toString typedDate.Year ++ "-" ++ toString typedDate.Month ++ "-"
      ++ toString typedDate.Day)
  | _ => .error (.panic "interface conversion: interface is not float64")

/-- The literal `chart.Style{ClassName: c}`. -/
def styleClass (c : String) : Style := ⟨c, ⟨0, 0, 0, 0⟩, .fin 0⟩

/-- The literal `chart.Style{StrokeColor: col, StrokeWidth: w}`. -/
def styleStroke (col : Color) (w : Float64) : Style := ⟨"", col, w⟩

/-- Method `team.renderer` (team.go lines 22-92). -/
def team.renderer (tzLocal : Location) (t : team) : Chart :=
  let s := t.slices
  { Background := styleClass "background"
    Canvas := styleClass "canvas"
    XAxis := ⟨"Date", true, valueFormatter tzLocal⟩
    Series := [
      .ContinuousSeries "Cycle time (days)    "
        (styleStroke (ColorFromHex "f27713") (.fin 2)) s.xval s.cycleYval,
      .ContinuousSeries " Throughput (# of tasks)    "
        (styleStroke (ColorFromHex "2a317c") (.fin 2)) s.xval s.throughputYval,
      .AnnotationSeries s.comments]
    Elements := [.Legend] }

/-! ## main.go -/

/-- Constant `cellStart`. -/
def cellStart : String := "B5"

/-- Constant `cellStop`. -/
def cellStop : String := "G"

/-- The Sheets client: `Spreadsheets.Values.Get(spreadsheetId, readRange).Do()`
gives the rows of the range or an error. -/
structure Service where
  get : String → String → Except String (List (List Any))

/-- What the program takes from its surroundings: the variable `SHEET_ID`, the
library function `strconv.ParseFloat(s, 64)`, the local time zone, the text
`%v` prints for a `time.Time`, and the bytes `Render(chart.SVG, w)` writes. -/
structure Env where
  sheetId : String
  ParseFloat : String → Except String Float64
  tzLocal : Location
  timeString : Time → String
  renderSVG : Chart → String

/-- The index expression `row[i]`: a panic when `i` is out of range. -/
def index (row : List Any) (i : Nat) : Except Abort Any :=
  match row[i]? with
  | some v => .ok v
  | none => .error (.panic "index out of range")

/-- The type assertion `v.(string)`: a panic when `v` holds no string. -/
def assertString : Any → Except Abort String
  | .str s => .ok s
  | _ => .error (.panic "interface conversion: interface is not string")

/-- The check `if err != nil` after a library call: the error is returned as it is. -/
def orReturn {α : Type} : Except String α → Except Abort α
  | .ok a => .ok a
  | .error e => .error (.error e)

/-- The comment of a row (main.go lines 104-107): empty unless the row has more
than five cells, then the sixth cell asserted to be a string. -/
def commentCell (row : List Any) : Except Abort String :=
  let comment := ""
  if row.length > 5 then do
    let c5 ← index row 5
    assertString c5
  else pure comment

/-- The body of the loop over the rows (main.go lines 92-114). -/
def convertRow (env : Env) (row : List Any) : Except Abort teamData := do
  let c0 ← index row 0
  let s0 ← assertString c0
  let date ← orReturn (timeParse s0)
  let c1 ← index row 1
  let s1 ← assertString c1
  let cycle ← orReturn (env.ParseFloat s1)
  let c2 ← index row 2
  let s2 ← assertString c2
  let throughput ← orReturn (env.ParseFloat s2)
  let comment ← commentCell row
  pure ⟨date, cycle, throughput, comment⟩

/-- The loop over the rows (main.go lines 91-116): each converted row is
appended to `t.data`; the first failure ends the call. -/
def convertRows (env : Env) : List (List Any) → team → Except Abort team
  | [], t => .ok t
  | row :: rest, t => do
    let data ← convertRow env row
    convertRows env rest ⟨t.name, t.data ++ [data]⟩

/-- Function `getTeamData` (main.go lines 79-119). -/
def getTeamData (env : Env) (teamName : String) (sheet : Service) : Except Abort team :=
  let spreadsheetId := env.sheetId
  let readRange := teamName ++ "!" ++ cellStart ++ ":" ++ cellStop
  match sheet.get spreadsheetId readRange with
  | .error err => .error (.error ("unable to retrieve data from sheet: " ++ err))
  | .ok values =>
    let t := newTeam teamName
    if values.length > 0 then convertRows env values t else .ok t

/-- Struct `teamChart`. -/
structure teamChart where
  renderer : Chart
  title : String

/-- The package variables `lastUpdate` and `charts`. -/
structure Store where
  lastUpdate : Time
  charts : List teamChart

/-- The zero `time.Time`: 0001-01-01 00:00:00 UTC. -/
def zeroTime : Time := ⟨-62135596800, UTC⟩

/-- The package variables before the first refresh: a nil slice and the zero time. -/
def initialStore : Store := ⟨zeroTime, []⟩

/-- The loop over the teams in `main` (main.go lines 196-203): a team whose
retrieval returns an error is logged and skipped, a successful one is appended;
a panic is not recovered. -/
def refreshTeams (env : Env) (sheet : Service) :
    List String → List teamChart → Except Abort (List teamChart)
  | [], charts => .ok charts
  | name :: rest, charts =>
    match getTeamData env name sheet with
    | .ok t => refreshTeams env sheet rest (charts ++ [⟨t.renderer env.tzLocal, t.name⟩])
    | .error (.error _) => refreshTeams env sheet rest charts
    | .error (.panic p) => .error (.panic p)

/-- One turn of the refresh loop (main.go lines 193-206), `now` being what
`time.Now()` returns: `charts` is reset and rebuilt, then `lastUpdate` is set. -/
def refreshCycle (env : Env) (sheet : Service) (teams : List String) (now : Time)
    (_s : Store) : Except Abort Store := do
  let charts ← refreshTeams env sheet teams []
  pure ⟨now, charts⟩

/-- The teams configured in `main`. -/
def teams : List String := ["DevOps", "VSS"]

/-- The first write of `serveHTTP` (main.go lines 143-148). -/
def pageHead : String :=
  "<!DOCTYPE html><html><head>" ++
    "<title>team metrics</title>" ++
    "<link rel=\"stylesheet\" type=\"text/css\" href=\"/main.css\">" ++
    "</head>" ++
    "<body>"

/-- The second write of `serveHTTP` (main.go lines 149-152). -/
def pageIntro (env : Env) (lastUpdate : Time) : String :=
  "\n<p><ul><li><b>cycle time</b> measures how long it takes an individual task to go through the process (lower is better)<li><b>throughput</b> measures the total amount of work delivered in a certain time period (higher is better)</ul></p>\n<p>Data updated at "
    ++ env.timeString lastUpdate ++ "</p>\n"

/-- The heading written for one chart (main.go line 156). -/
def heading (title : String) : String := "<h2>" ++ title ++ "</h2>"

/-- One iteration of the loop of `serveHTTP` (main.go lines 156-157) on the
writes made so far: the heading is written, then the chart is rendered to the
response. -/
def serveChart (env : Env) (res : List String) (c : teamChart) : List String :=
  let res := res ++ [heading c.title]
  res ++ [env.renderSVG c.renderer]

/-- Function `serveHTTP` (main.go lines 142-161) run without interference: what
it writes to the response, one entry per write in order, and the package
variables afterwards. -/
def serveHTTP (env : Env) (s : Store) : List String × Store :=
  let res := [pageHead]
  let res := res ++ [pageIntro env s.lastUpdate]
  let res := s.charts.foldl (serveChart env) res
  let res := res ++ ["</body>"]
  (res, s)

/-- The bytes of a response: its writes one after the other. -/
def responseBytes (res : List String) : String := String.join res

/-! ## Vocabulary of the specification -/

/-- The annotation points the specification asks of one observation: none for an
empty comment, otherwise the point on the cycle-time curve followed by the point
on the throughput curve, both at the observation's timestamp and labelled with
its comment. -/
def commentPoints (d : teamData) : List Value2 :=
  if d.comment = "" then []
  else [⟨float64OfInt64 d.date.Unix, d.cycleTime, d.comment⟩,
        ⟨float64OfInt64 d.date.Unix, d.throughput, d.comment⟩]

/-- The team of the specification's scenario: three observations dated
2023-01-01/02/03, the middle one commented. -/
def devOps : team :=
  ⟨"DevOps", [⟨midnightUTC 2023 1 1, .fin 2, .fin 5, ""⟩,
              ⟨midnightUTC 2023 1 2, .fin (3 / 2), .fin 6, "retro feedback"⟩,
              ⟨midnightUTC 2023 1 3, .fin 1, .fin 7, ""⟩]⟩

/-- The claim "the row's date and both numbers parse": the first three cells
are strings, `time.Parse` accepts the first and `strconv.ParseFloat` the second
and the third. -/
def rowParses (env : Env) (row : List Any) : Bool :=
  match row with
  | .str a :: .str b :: .str c :: _ =>
    (timeParse a).isOk && (env.ParseFloat b).isOk && (env.ParseFloat c).isOk
  | _ => false

/-- The comment the specification asks of a row: its sixth cell when the row has
more than five cells, the empty string otherwise. -/
def rowComment (row : List Any) : String :=
  match row with
  | _ :: _ :: _ :: _ :: _ :: Any.str s :: _ => s
  | _ => ""

/-- The observation the specification asks of a row that parses: its date, cycle
time and throughput, and its comment. -/
def rowObservation (env : Env) (row : List Any) : Option teamData :=
  match row with
  | .str a :: .str b :: .str c :: _ =>
    match timeParse a, env.ParseFloat b, env.ParseFloat c with
    | .ok date, .ok cycle, .ok throughput => some ⟨date, cycle, throughput, rowComment row⟩
    | _, _, _ => none
  | _ => none

/-- The first three cells of a row exist and hold strings. -/
def threeStrings (row : List Any) : Bool :=
  match row with
  | .str _ :: .str _ :: .str _ :: _ => true
  | _ => false

/-- The sixth cell of a row, when the row has one, holds a string. -/
def commentIsString (row : List Any) : Bool :=
  match row[5]? with
  | none => true
  | some (Any.str _) => true
  | some _ => false

/-- A stand-in for `strconv.ParseFloat` in the examples: it reads an unsigned
decimal integer of at most 15 digits, which `ParseFloat` reads to the same value,
and rejects every other text. -/
def parseFloatDigits (s : String) : Except String Float64 :=
  if s.toList ≠ [] ∧ s.toList.length ≤ 15 ∧ s.toList.all Char.isDigit then
    .ok (.fin (s.toList.foldl (fun n c => 10 * n + digitVal c) 0))
  else .error "invalid syntax"

/-- An environment for the examples: UTC as local zone, empty renderings. -/
def demoEnv : Env := ⟨"sheet", parseFloatDigits, UTC, fun _ => "", fun _ => ""⟩

/-- Rows of the examples: two observations, the second one commented. -/
def demoRows : List (List Any) :=
  [[.str "2023-01-01", .str "2", .str "5"],
   [.str "2023-01-02", .str "1", .str "6", .str "", .str "", .str "retro feedback"]]

/-- A source for the examples: the sheet of team DevOps holds `demoRows`, every
other retrieval fails. -/
def demoSheet : Service :=
  ⟨fun _ readRange => if readRange = "DevOps!B5:G" then .ok demoRows else .error "unavailable"⟩

/-- A source that answers every request with the same rows. -/
def constSheet (rows : List (List Any)) : Service := ⟨fun _ _ => .ok rows⟩

/-- A zone five hours west of UTC all year (US Eastern standard time). -/
def fiveWest : Location := ⟨fun _ => -18000⟩

/-- Rows whose date and numbers parse and whose sixth cell is a number. -/
def numericCommentRows : List (List Any) :=
  [[.str "2023-01-01", .str "2", .str "5", .str "", .str "", .float64 (.fin 42)]]

/-- Rows as the source returns them when the cells after the date are blank: the
row ends after its first cell. -/
def shortRows : List (List Any) := [[.str "2023-01-01"]]

/-- A set of package variables left by an earlier cycle in which team VSS was
retrieved. -/
def priorStore : Store := ⟨zeroTime, [⟨(newTeam "VSS").renderer UTC, "VSS"⟩]⟩

/-- A source whose sheet of team DevOps holds a row that ends after its date
cell, and whose every other sheet holds `demoRows`. -/
def malformedFirstSheet : Service :=
  ⟨fun _ readRange => if readRange = "DevOps!B5:G" then .ok shortRows else .ok demoRows⟩

/-- An environment for the page example: the time is shown as its second count
and a chart as the number of its series. -/
def pageEnv : Env :=
  ⟨"sheet", parseFloatDigits, UTC, fun t => toString t.sec,
   fun c => "<svg>" ++ toString c.Series.length ++ "</svg>"⟩

/-- Package variables for the page example: two charts, updated at second 1672617600. -/
def pageStore : Store :=
  ⟨⟨1672617600, UTC⟩, [⟨devOps.renderer UTC, "DevOps"⟩, ⟨(newTeam "VSS").renderer UTC, "VSS"⟩]⟩

/-! ## The refresh goroutine and the request handlers, step by step

The goroutine started in `main` and the goroutines running `serveHTTP` share the
package variables `l`, `lastUpdate` and `charts`. A world holds these variables
and, for each goroutine, where it stands in its code; a step lets one goroutine
execute up to its next access to a shared variable. `l.Lock()` can only be
taken by a step when the mutex is free. -/

/-- Where the refresh goroutine stands (main.go lines 192-208). -/
inductive RefreshPc where
  /-- before `l.Lock()` (line 193) -/
  | lock
  /-- holding `l`, before `charts` is reset to the empty slice (line 195) -/
  | reset
  /-- holding `l`, in the loop over the teams, these names left (lines 196-203) -/
  | loop (rest : List String)
  /-- holding `l`, before `l.Unlock()` (line 204) -/
  | unlock
  /-- before `lastUpdate = time.Now()` (line 206) -/
  | stamp
  /-- in `time.Sleep(time.Hour)` (line 207) -/
  | sleep
  /-- ended by a panic of `getTeamData`, which ends the process -/
  | crashed
  deriving DecidableEq

/-- Where a request handler stands in `serveHTTP` (main.go lines 142-161). -/
inductive HandlerPc where
  /-- not started, or before the first write (line 143) -/
  | head
  /-- before the second write, which reads `lastUpdate` (line 149) -/
  | intro
  /-- before `l.Lock()` (line 154) -/
  | lock
  /-- holding `l`, before `range charts` is evaluated (line 155) -/
  | range
  /-- holding `l`, at the head of iteration `i` of `n`, before line 156 -/
  | title (i n : Nat)
  /-- holding `l`, in iteration `i` of `n` after the heading with this title was
  written, before line 157 -/
  | render (i n : Nat) (title : String)
  /-- holding `l`, before `l.Unlock()` (line 159) -/
  | unlock
  /-- before the last write (line 160) -/
  | tail
  /-- returned -/
  | done
  /-- ended by an index out of range inside the loop -/
  | panicked
  deriving DecidableEq

/-- A request handler: where it stands, the bytes it has written, and (for the
statement of properties only) the chart entries it has iterated over. -/
structure Handler where
  pc : HandlerPc
  res : String
  seen : List teamChart

/-- The shared variables, the goroutines, and (for the statement of properties
only) the chart lists the refresh goroutine had built each time it left its loop
over the teams. -/
structure World where
  locked : Bool
  lastUpdate : Time
  charts : List teamChart
  refresher : RefreshPc
  handlers : Nat → Handler
  history : List (List teamChart)

/-- The start of the process: the mutex free, the variables at their zero
values, no goroutine started. -/
def initWorld : World :=
  ⟨false, zeroTime, [], .lock, fun _ => ⟨.head, "", []⟩, []⟩

/-- What happens next: the refresh goroutine moves (the source being in state
`sheet` and the clock showing `now`), or the handler of request `k` moves. -/
inductive Action where
  | refresh (sheet : Service) (now : Time)
  | handle (k : Nat)

/-- One step of the refresh goroutine; `none` when it cannot move. -/
def refreshStep (env : Env) (names : List String) (sheet : Service) (now : Time)
    (w : World) : Option World :=
  match w.refresher with
  | .lock => if w.locked then none else some { w with locked := true, refresher := .reset }
  | .reset => some { w with charts := [], refresher := .loop names }
  | .loop [] => some { w with refresher := .unlock }
  | .loop (name :: rest) =>
    match getTeamData env name sheet with
    | .ok t =>
      some { w with charts := w.charts ++ [⟨t.renderer env.tzLocal, t.name⟩],
                    refresher := .loop rest }
    | .error (.error _) => some { w with refresher := .loop rest }
    | .error (.panic _) => some { w with refresher := .crashed }
  | .unlock =>
    some { w with locked := false, refresher := .stamp, history := w.history ++ [w.charts] }
  | .stamp => some { w with lastUpdate := now, refresher := .sleep }
  | .sleep => some { w with refresher := .lock }
  | .crashed => none

/-- One step of a request handler: the new value of the mutex and the handler
afterwards; `none` when it cannot move. -/
def handlerStep (env : Env) (w : World) (h : Handler) : Option (Bool × Handler) :=
  match h.pc with
  | .head => some (w.locked, { h with res := h.res ++ pageHead, pc := .intro })
  | .intro => some (w.locked, { h with res := h.res ++ pageIntro env w.lastUpdate, pc := .lock })
  | .lock => if w.locked then none else some (true, { h with pc := .range })
  | .range => some (w.locked, { h with pc := .title 0 w.charts.length })
  | .title i n =>
    if i < n then
      match w.charts[i]? with
      | some c => some (w.locked, { h with res := h.res ++ heading c.title,
                                           pc := .render i n c.title })
      | none => some (w.locked, { h with pc := .panicked })
    else some (w.locked, { h with pc := .unlock })
  | .render i n title =>
    match w.charts[i]? with
    | some c => some (w.locked, { h with res := h.res ++ env.renderSVG c.renderer,
                                         seen := h.seen ++ [⟨c.renderer, title⟩],
                                         pc := .title (i + 1) n })
    | none => some (w.locked, { h with pc := .panicked })
  | .unlock => some (false, { h with pc := .tail })
  | .tail => some (w.locked, { h with res := h.res ++ "</body>", pc := .done })
  | .done => none
  | .panicked => none

/-- One step of the process; nothing moves once the refresh goroutine has panicked. -/
def step (env : Env) (names : List String) (w : World) : Action → Option World
  | .refresh sheet now => refreshStep env names sheet now w
  | .handle k =>
    if w.refresher = .crashed then none
    else
      match handlerStep env w (w.handlers k) with
      | some (locked, h) =>
        some { w with locked := locked, handlers := Function.update w.handlers k h }
      | none => none

/-- A run: the steps of a schedule one after the other. -/
def run (env : Env) (names : List String) : World → List Action → Option World
  | w, [] => some w
  | w, a :: rest =>
    match step env names w a with
    | some w1 => run env names w1 rest
    | none => none

/-- The refresh goroutine holds the mutex. -/
def RefreshPc.holds : RefreshPc → Bool
  | .reset | .loop _ | .unlock | .crashed => true
  | _ => false

/-- The handler holds the mutex. -/
def HandlerPc.holds : HandlerPc → Bool
  | .range | .title _ _ | .render _ _ _ | .unlock | .panicked => true
  | _ => false

/-- The handler has left its loop over the charts. -/
def HandlerPc.pastLoop : HandlerPc → Bool
  | .unlock | .tail | .done => true
  | _ => false

/-- A complete chart list: the initial empty list, or a list the refresh
goroutine had built when it left its loop over the teams. -/
def World.complete (w : World) (L : List teamChart) : Prop :=
  L = [] ∨ L ∈ w.history

/-- What is known of a handler in a world: before its loop it has iterated over
nothing; inside its loop it has iterated over the first `i` entries of the
current list, whose length is the bound `n` of its loop; after its loop it has
iterated over a complete list; it has not panicked. -/
def handlerOk (w : World) (h : Handler) : Prop :=
  match h.pc with
  | .head | .intro | .lock | .range => h.seen = []
  | .title i n => n = w.charts.length ∧ i ≤ n ∧ h.seen = w.charts.take i
  | .render i n t =>
    n = w.charts.length ∧ i < n ∧ h.seen = w.charts.take i
      ∧ ∃ c, w.charts[i]? = some c ∧ c.title = t
  | .unlock => h.seen = w.charts
  | .tail | .done => w.complete h.seen
  | .panicked => False

/-- The invariant of the process: the mutex is taken exactly when one goroutine
is between its `Lock` and its `Unlock`, at most one goroutine is, the chart list
is complete whenever the refresh goroutine is not, and `handlerOk` holds of
every handler. -/
structure Inv (w : World) : Prop where
  lockedIff : w.locked = true ↔
    (w.refresher.holds = true ∨ ∃ k, (w.handlers k).pc.holds = true)
  excl : w.refresher.holds = true → ∀ k, (w.handlers k).pc.holds = false
  single : ∀ j k, (w.handlers j).pc.holds = true → (w.handlers k).pc.holds = true → j = k
  idle : w.refresher.holds = false → w.complete w.charts
  handler : ∀ k, handlerOk w (w.handlers k)

/-- What is known of the list under construction: every recorded list, and the
list the refresh goroutine is about to release, has as titles a sublist of the
configured names; inside the loop the titles are a sublist of the names already
processed. -/
def built (names : List String) (w : World) : Prop :=
  (∀ L ∈ w.history, (L.map teamChart.title).Sublist names)
  ∧ match w.refresher with
    | .loop rest =>
      ∃ processed, names = processed ++ rest ∧ (w.charts.map teamChart.title).Sublist processed
    | .unlock => (w.charts.map teamChart.title).Sublist names
    | _ => True

/-- A schedule for the examples: request 0 writes its head and its paragraph;
the first refresh cycle runs (DevOps retrieved, VSS failing) while request 1
starts; the second cycle runs; then handler 0 takes the mutex and renders its
page to the end, and handler 1 gets as far as its loop. -/
def demoSchedule : List Action :=
  [.handle 0, .handle 0,
   .refresh demoSheet zeroTime, .refresh demoSheet zeroTime, .refresh demoSheet zeroTime,
   .handle 1,
   .refresh demoSheet zeroTime, .refresh demoSheet zeroTime, .refresh demoSheet zeroTime,
   .refresh demoSheet zeroTime, .refresh demoSheet zeroTime,
   .refresh demoSheet zeroTime, .refresh demoSheet zeroTime, .refresh demoSheet zeroTime,
   .refresh demoSheet zeroTime, .refresh demoSheet zeroTime, .refresh demoSheet zeroTime,
   .handle 0, .handle 0, .handle 0, .handle 0, .handle 0, .handle 0, .handle 0,
   .handle 1, .handle 1, .handle 1, .handle 1]

/-! ## The series builder -/

/-- The loop of `renderer` started from any four slices appends, to each, one
entry per observation. -/
theorem foldl_rendererStep (data : List teamData) (acc : Slices) :
    data.foldl rendererStep acc =
      ⟨acc.xval ++ data.map (fun d => float64OfInt64 d.date.Unix),
       acc.cycleYval ++ data.map teamData.cycleTime,
       acc.throughputYval ++ data.map teamData.throughput,
       acc.comments ++ data.flatMap commentPoints⟩ := by
  induction data generalizing acc with
  | nil => simp
  | cons d rest ih =>
    rw [List.foldl_cons, ih]
    by_cases hc : d.comment = "" <;> simp [rendererStep, commentPoints, hc]

/-- The four slices of `renderer` in closed form. -/
theorem slices_eq (t : team) :
    t.slices =
      ⟨t.data.map (fun d => float64OfInt64 d.date.Unix),
       t.data.map teamData.cycleTime,
       t.data.map teamData.throughput,
       t.data.flatMap commentPoints⟩ := by
  simp [team.slices, foldl_rendererStep]

/-- The series of the chart are built from the four slices. -/
theorem renderer_series (tz : Location) (t : team) :
    (t.renderer tz).Series =
      [.ContinuousSeries "Cycle time (days)    "
         (styleStroke (ColorFromHex "f27713") (.fin 2)) t.slices.xval t.slices.cycleYval,
       .ContinuousSeries " Throughput (# of tasks)    "
         (styleStroke (ColorFromHex "2a317c") (.fin 2)) t.slices.xval t.slices.throughputYval,
       .AnnotationSeries t.slices.comments] := rfl

/-- C1: the X values and the cycle-time Y values of the first series and the
throughput Y values of the second series have as many entries as the team has
observations, both series carry the same X array, and a team without
observations gives three empty arrays. -/
theorem renderer_arrays_length (tz : Location) (t : team) :
    (∃ n1 st1 n2 st2 an xs cs ts,
      (t.renderer tz).Series =
        [.ContinuousSeries n1 st1 xs cs, .ContinuousSeries n2 st2 xs ts, .AnnotationSeries an]
      ∧ xs.length = t.data.length ∧ cs.length = t.data.length
      ∧ ts.length = t.data.length)
    ∧ (∃ n1 st1 n2 st2 an,
      ((⟨t.name, []⟩ : team).renderer tz).Series =
        [.ContinuousSeries n1 st1 [] [], .ContinuousSeries n2 st2 [] [],
         .AnnotationSeries an]) := by
  refine ⟨⟨_, _, _, _, _, _, _, _, renderer_series tz t, ?_, ?_, ?_⟩,
    ⟨_, _, _, _, _, renderer_series tz _⟩⟩ <;> simp [slices_eq]

/-- C2: the annotation list of the chart is the concatenation, in input order,
of the two points of each commented observation (cycle-time point, then
throughput point, at the observation's timestamp, labelled with its comment) and
of nothing for an observation without comment; so it has twice as many entries as
there are commented observations, and no entry has an empty label. -/
theorem renderer_annotations (tz : Location) (t : team) :
    ∃ n1 st1 n2 st2 xs cs ts an,
      (t.renderer tz).Series =
        [.ContinuousSeries n1 st1 xs cs, .ContinuousSeries n2 st2 xs ts, .AnnotationSeries an]
      ∧ an = t.data.flatMap (fun d =>
          if d.comment = "" then []
          else [⟨float64OfInt64 d.date.Unix, d.cycleTime, d.comment⟩,
                ⟨float64OfInt64 d.date.Unix, d.throughput, d.comment⟩])
      ∧ an.length = 2 * (t.data.filter (fun d => d.comment ≠ "")).length
      ∧ ∀ a ∈ an, a.Label ≠ "" := by
  refine ⟨_, _, _, _, _, _, _, _, renderer_series tz t, ?_, ?_, ?_⟩
  · simp only [slices_eq]; rfl
  · simp only [slices_eq]
    induction t.data with
    | nil => simp
    | cons d rest ih =>
      by_cases hc : d.comment = ""
      · simp [commentPoints, hc] at ih ⊢; exact ih
      · simp [commentPoints, hc, List.filter_cons] at ih ⊢; omega
  · intro a ha
    simp only [slices_eq, List.mem_flatMap] at ha
    obtain ⟨d, _, hd⟩ := ha
    by_cases hc : d.comment = ""
    · simp [commentPoints, hc] at hd
    · simp only [commentPoints, hc, if_false, List.mem_cons, List.mem_singleton,
        List.not_mem_nil, or_false] at hd
      rcases hd with rfl | rfl <;> exact hc

/-- C3: at every index below the observation count the X array holds the Unix
second count of that observation's date (converted to `float64`, which is exact
below `2^53` in magnitude), and the two Y arrays hold its cycle time and its
throughput; the arrays are the observations' values in input order. -/
theorem renderer_index_aligned (tz : Location) (t : team) (i : Nat)
    (h : i < t.data.length) :
    ∃ n1 st1 n2 st2 an xs cs ts,
      (t.renderer tz).Series =
        [.ContinuousSeries n1 st1 xs cs, .ContinuousSeries n2 st2 xs ts, .AnnotationSeries an]
      ∧ xs[i]? = some (float64OfInt64 (t.data.get ⟨i, h⟩).date.Unix)
      ∧ ((t.data.get ⟨i, h⟩).date.Unix.natAbs < 2 ^ 53 →
          xs[i]? = some (.fin (t.data.get ⟨i, h⟩).date.Unix))
      ∧ cs[i]? = some (t.data.get ⟨i, h⟩).cycleTime
      ∧ ts[i]? = some (t.data.get ⟨i, h⟩).throughput
      ∧ xs = t.data.map (fun d => float64OfInt64 d.date.Unix)
      ∧ cs = t.data.map teamData.cycleTime
      ∧ ts = t.data.map teamData.throughput := by
  refine ⟨_, _, _, _, _, _, _, _, renderer_series tz t, ?_, ?_, ?_, ?_, ?_, ?_, ?_⟩
    <;> simp [slices_eq, h, float64OfInt64]
  intro h53
  simp [h53]

/-- C3, on the scenario of the specification: the second observation of the
DevOps team. -/
theorem renderer_index_aligned_witness :
    1 < devOps.data.length ∧
    (devOps.data.get ⟨1, by decide⟩).date.Unix.natAbs < 2 ^ 53 ∧
    ∃ n1 st1 n2 st2 an xs cs ts,
      (devOps.renderer UTC).Series =
        [.ContinuousSeries n1 st1 xs cs, .ContinuousSeries n2 st2 xs ts, .AnnotationSeries an]
      ∧ xs[1]? = some (float64OfInt64 (devOps.data.get ⟨1, by decide⟩).date.Unix)
      ∧ ((devOps.data.get ⟨1, by decide⟩).date.Unix.natAbs < 2 ^ 53 →
          xs[1]? = some (.fin (devOps.data.get ⟨1, by decide⟩).date.Unix))
      ∧ cs[1]? = some (devOps.data.get ⟨1, by decide⟩).cycleTime
      ∧ ts[1]? = some (devOps.data.get ⟨1, by decide⟩).throughput
      ∧ xs = devOps.data.map (fun d => float64OfInt64 d.date.Unix)
      ∧ cs = devOps.data.map teamData.cycleTime
      ∧ ts = devOps.data.map teamData.throughput :=
  ⟨by decide, by decide, renderer_index_aligned UTC devOps 1 (by decide)⟩

/-- The scenario of the specification evaluated: three timestamps in order, the
cycle times, the throughputs, and the two annotation points of 2023-01-02. -/
theorem devOps_slices :
    devOps.slices =
      ⟨[.fin 1672531200, .fin 1672617600, .fin 1672704000],
       [.fin 2, .fin (3 / 2), .fin 1],
       [.fin 5, .fin 6, .fin 7],
       [⟨.fin 1672617600, .fin (3 / 2), "retro feedback"⟩,
        ⟨.fin 1672617600, .fin 6, "retro feedback"⟩]⟩ := by
  rfl

/-! ## The chart assembled by `renderer` -/

/-- C8 (as stated, refuted): the chart of a team is not made of a series
labelled exactly "Cycle time (days)" and one labelled exactly
"Throughput (# of tasks)" followed by an annotation series. -/
theorem renderer_labels_not_bare :
    ¬ ∃ st1 st2 xs cs ts an,
      ((newTeam "DevOps").renderer UTC).Series =
        [.ContinuousSeries "Cycle time (days)" st1 xs cs,
         .ContinuousSeries "Throughput (# of tasks)" st2 xs ts,
         .AnnotationSeries an] := by
  rintro ⟨st1, st2, xs, cs, ts, an, h⟩
  rw [renderer_series] at h
  simp only [List.cons.injEq, Series.ContinuousSeries.injEq] at h
  exact absurd h.1.1 (by decide)

/-- C8 (amended): the chart has exactly three series in this order: a
continuous series carrying the cycle times whose label is "Cycle time (days)"
followed by four spaces, a continuous series carrying the throughputs whose label
is "Throughput (# of tasks)" preceded by one space and followed by four spaces,
and an annotation series carrying the annotation points; both continuous series
have stroke width 2 and the two different stroke colours f27713 and 2a317c,
whatever the team's data. -/
theorem renderer_three_series (tz : Location) (t : team) :
    (t.renderer tz).Series =
      [.ContinuousSeries ("Cycle time (days)" ++ "    ")
         ⟨"", ⟨0xf2, 0x77, 0x13, 255⟩, .fin 2⟩
         (t.data.map (fun d => float64OfInt64 d.date.Unix)) (t.data.map teamData.cycleTime),
       .ContinuousSeries (" " ++ "Throughput (# of tasks)" ++ "    ")
         ⟨"", ⟨0x2a, 0x31, 0x7c, 255⟩, .fin 2⟩
         (t.data.map (fun d => float64OfInt64 d.date.Unix)) (t.data.map teamData.throughput),
       .AnnotationSeries (t.data.flatMap commentPoints)]
    ∧ ColorFromHex "f27713" = ⟨0xf2, 0x77, 0x13, 255⟩
    ∧ ColorFromHex "2a317c" = ⟨0x2a, 0x31, 0x7c, 255⟩
    ∧ ColorFromHex "f27713" ≠ ColorFromHex "2a317c" := by
  refine ⟨?_, by decide, by decide, by decide⟩
  rw [renderer_series, slices_eq]
  have h1 : ColorFromHex "f27713" = ⟨0xf2, 0x77, 0x13, 255⟩ := by decide
  have h2 : ColorFromHex "2a317c" = ⟨0x2a, 0x31, 0x7c, 255⟩ := by decide
  have h3 : "Cycle time (days)    " = "Cycle time (days)" ++ "    " := by decide
  have h4 : " Throughput (# of tasks)    " = " " ++ "Throughput (# of tasks)" ++ "    " := by
    decide
  rw [h1, h2, h3, h4]
  rfl

/-! ## The label of a date on the X axis -/

/-- Truncating a `float64` that holds an integer in the `int64` range gives the integer back. -/
theorem int64OfFloat64_int (n : Int) (h : n.natAbs < 2 ^ 63) :
    int64OfFloat64 (.fin n) = n := by
  have h1 : Rat.floor (n : ℚ) = n := by simp [Rat.floor]
  have h2 : Rat.ceil (n : ℚ) = n := by simp [Rat.ceil]
  simp only [int64OfFloat64, h1, h2, ite_self]
  rw [if_pos]
  omega

/-- An `int64` below `2^53` in magnitude survives the conversion to `float64` and back. -/
theorem int64_float64_roundtrip (n : Int) (h : n.natAbs < 2 ^ 53) :
    int64OfFloat64 (float64OfInt64 n) = n := by
  simp only [float64OfInt64, h, if_true]
  exact int64OfFloat64_int n (by omega)

/-- The day count of a date of the years 0..9999 is far below `2^53 / 86400`. -/
theorem daysFromCivil_bound (y m d : Int) (hy0 : 0 ≤ y) (hy1 : y ≤ 9999) (hd1 : 1 ≤ d)
    (hd2 : d ≤ 31) :
    -1000000 ≤ daysFromCivil y m d ∧ daysFromCivil y m d ≤ 4000000 := by
  simp only [daysFromCivil]
  split_ifs <;> omega

/-- The year of the era is recovered from the day of the era. -/
theorem yoe_recover (yoe doy : Int) (h0 : 0 ≤ yoe) (h1 : yoe < 400) (h2 : 0 ≤ doy)
    (h3 : doy ≤ 365) (h4 : doy = 365 → yoe % 4 = 3 ∧ (yoe % 100 ≠ 99 ∨ yoe = 399)) :
    ((yoe * 365 + yoe / 4 - yoe / 100 + doy) - (yoe * 365 + yoe / 4 - yoe / 100 + doy) / 1460
      + (yoe * 365 + yoe / 4 - yoe / 100 + doy) / 36524
      - (yoe * 365 + yoe / 4 - yoe / 100 + doy) / 146096) / 365 = yoe := by
  generalize hdoe : yoe * 365 + yoe / 4 - yoe / 100 + doy = doe
  have he : yoe / 100 = 0 ∨ yoe / 100 = 1 ∨ yoe / 100 = 2 ∨ yoe / 100 = 3 := by omega
  have hi : doe / 146096 = 0 ∨ doe / 146096 = 1 := by omega
  have hg : doe / 36524 - doe / 146096 = yoe / 100 := by
    rcases he with he | he | he | he <;> rcases hi with hi | hi <;> omega
  have hf : doe / 1460 = yoe / 4 ∨ doe / 1460 = yoe / 4 + 1 := by
    rcases he with he | he | he | he <;> omega
  rcases hf with hf | hf <;> omega

/-- The date of a day count given by era, year of era and day of the (March-based) year. -/
theorem civilFromDays_era (era yoe doy : Int) (h0 : 0 ≤ yoe) (h1 : yoe < 400) (h2 : 0 ≤ doy)
    (h3 : doy ≤ 365) (h4 : doy = 365 → yoe % 4 = 3 ∧ (yoe % 100 ≠ 99 ∨ yoe = 399)) :
    civilFromDays (era * 146097 + (yoe * 365 + yoe / 4 - yoe / 100 + doy) - 719468) =
      (if (if (5 * doy + 2) / 153 < 10 then (5 * doy + 2) / 153 + 3
            else (5 * doy + 2) / 153 - 9) ≤ 2
        then yoe + era * 400 + 1 else yoe + era * 400,
       if (5 * doy + 2) / 153 < 10 then (5 * doy + 2) / 153 + 3 else (5 * doy + 2) / 153 - 9,
       doy - (153 * ((5 * doy + 2) / 153) + 2) / 5 + 1) := by
  have hy := yoe_recover yoe doy h0 h1 h2 h3 h4
  generalize hdoe : yoe * 365 + yoe / 4 - yoe / 100 + doy = doe at hy
  have hera : (era * 146097 + doe - 719468 + 719468) / 146097 = era := by omega
  have hdoe2 : era * 146097 + doe - 719468 + 719468 - era * 146097 = doe := by omega
  have hdoy : doe - (365 * yoe + yoe / 4 - yoe / 100) = doy := by omega
  simp only [civilFromDays, hera, hdoe2, hy, hdoy]

/-- The date of the day count of an existing date is that date. -/
theorem civil_roundtrip (y m d : Int) (hm1 : 1 ≤ m) (hm2 : m ≤ 12) (hd1 : 1 ≤ d)
    (hd2 : d ≤ daysIn m y) : civilFromDays (daysFromCivil y m d) = (y, m, d) := by
  have hm : m = 1 ∨ m = 2 ∨ m = 3 ∨ m = 4 ∨ m = 5 ∨ m = 6 ∨ m = 7 ∨ m = 8 ∨ m = 9 ∨ m = 10
      ∨ m = 11 ∨ m = 12 := by omega
  have hd31 : d ≤ 31 := by
    simp only [daysIn] at hd2; split_ifs at hd2 <;> omega
  simp only [daysFromCivil]
  rcases hm with rfl | rfl | rfl | rfl | rfl | rfl | rfl | rfl | rfl | rfl | rfl | rfl
  all_goals
    simp only [daysIn, isLeap] at hd2
    norm_num at hd2 ⊢
    rw [civilFromDays_era _ _ _ (by omega) (by omega) (by omega) (by omega) (by
      intro h; omega)]
    refine Prod.ext ?_ (Prod.ext ?_ ?_) <;> dsimp only <;> omega

/-- The formatter on the X value of a date of the years 0..9999: the label is
the calendar date, in the local zone, of the instant midnight UTC of that date. -/
theorem valueFormatter_label (tz : Location) (y m d : Int) (hy0 : 0 ≤ y) (hy1 : y ≤ 9999)
    (hd1 : 1 ≤ d) (hd2 : d ≤ 31) :
    valueFormatter tz (.float64 (float64OfInt64 (midnightUTC y m d).Unix)) =
      .ok (toString (timeUnix tz (daysFromCivil y m d * 86400)).Year ++ "-"
        ++ toString (timeUnix tz (daysFromCivil y m d * 86400)).Month ++ "-"
        ++ toString (timeUnix tz (daysFromCivil y m d * 86400)).Day) := by
  have hb := daysFromCivil_bound y m d hy0 hy1 hd1 hd2
  have hr : int64OfFloat64 (float64OfInt64 (daysFromCivil y m d * 86400))
      = daysFromCivil y m d * 86400 := int64_float64_roundtrip _ (by omega)
  simp only [valueFormatter, midnightUTC, Time.Unix, hr]

/-- In a zone that is never west of UTC (offset from 0 to below 24 hours), the
label of an existing date of the years 0..9999 is that date, year-month-day
without padding. -/
theorem valueFormatter_east_of_UTC (tz : Location) (t : team) (y m d : Int)
    (htz : ∀ s, 0 ≤ tz.offset s ∧ tz.offset s < 86400)
    (hy0 : 0 ≤ y) (hy1 : y ≤ 9999) (hm1 : 1 ≤ m) (hm2 : m ≤ 12) (hd1 : 1 ≤ d)
    (hd2 : d ≤ daysIn m y) :
    (t.renderer tz).XAxis.ValueFormatter (.float64 (float64OfInt64 (midnightUTC y m d).Unix))
      = .ok (toString y ++ "-" ++ toString m ++ "-" ++ toString d) := by
  have hd31 : d ≤ 31 := by
    simp only [daysIn] at hd2; split_ifs at hd2 <;> omega
  have hl := valueFormatter_label tz y m d hy0 hy1 hd1 hd31
  have hb := daysFromCivil_bound y m d hy0 hy1 hd1 hd31
  have hday : (timeUnix tz (daysFromCivil y m d * 86400)).abs / 86400 - absoluteDays
      = daysFromCivil y m d := by
    have := htz (daysFromCivil y m d * 86400)
    have hmod : (daysFromCivil y m d * 86400 + tz.offset (daysFromCivil y m d * 86400)
        + 106751991073094 * 86400) % 18446744073709551616
        = daysFromCivil y m d * 86400 + tz.offset (daysFromCivil y m d * 86400)
          + 106751991073094 * 86400 :=
      Int.emod_eq_of_lt (by omega) (by omega)
    simp only [Time.abs, timeUnix, absoluteDays, hmod]
    omega
  have hc : (timeUnix tz (daysFromCivil y m d * 86400)).civil = (y, m, d) := by
    simp only [Time.civil, hday]
    exact civil_roundtrip y m d hm1 hm2 hd1 hd2
  simp only [team.renderer]
  rw [hl]
  simp only [Time.Year, Time.Month, Time.Day, hc]

set_option maxRecDepth 8000 in
/-- C7 (the code at the failing input): the observation dated 2023-01-02 is
parsed as midnight UTC, and the X value the builder produces for it is labelled
"2023-1-1", the day before, by the formatter of a process five hours west of
UTC; in a process in UTC it is labelled "2023-1-2". -/
theorem valueFormatter_west_of_UTC :
    ∃ t x, timeParse "2023-01-02" = .ok t
      ∧ (devOps.data.map teamData.date)[1]?.map Time.Unix = some t.Unix
      ∧ devOps.slices.xval[1]? = some x
      ∧ (devOps.renderer fiveWest).XAxis.ValueFormatter (.float64 x) = .ok "2023-1-1"
      ∧ (devOps.renderer UTC).XAxis.ValueFormatter (.float64 x) = .ok "2023-1-2" :=
  ⟨_, _, rfl, by decide, rfl, by decide, by decide⟩

/-! ## Row conversion in `getTeamData` -/


/-- With a source that answers with `rows`, `getTeamData` is the row loop on a new team. -/
theorem getTeamData_constSheet (env : Env) (name : String) (rows : List (List Any)) :
    getTeamData env name (constSheet rows) = convertRows env rows (newTeam name) := by
  cases rows with
  | nil => simp [getTeamData, constSheet, convertRows]
  | cons r rs => simp [getTeamData, constSheet]

theorem threeStrings_shape (row : List Any) (h3 : threeStrings row = true) :
    ∃ a b c rest, row = .str a :: .str b :: .str c :: rest := by
  unfold threeStrings at h3
  split at h3
  · exact ⟨_, _, _, _, rfl⟩
  · cases h3

theorem commentCell_strings (row : List Any) (h6 : commentIsString row = true) :
    commentCell row = .ok (rowComment row) := by
  rcases row with _ | ⟨a, _ | ⟨b, _ | ⟨c, _ | ⟨x, _ | ⟨y, _ | ⟨z, rest⟩⟩⟩⟩⟩⟩
  · rfl
  · rfl
  · rfl
  · rfl
  · rfl
  · rfl
  · cases z <;> simp [commentIsString] at h6
    simp [commentCell, rowComment, index, assertString, bind, Except.bind]

/-- The loop body on a row whose first three cells and sixth cell (if any) are strings. -/
theorem convertRow_strings (env : Env) (row : List Any) (h3 : threeStrings row = true)
    (h6 : commentIsString row = true) :
    (rowParses env row = false → ∃ e, convertRow env row = .error (.error e))
    ∧ (rowParses env row = true →
        ∃ d, rowObservation env row = some d ∧ convertRow env row = .ok d) := by
  obtain ⟨a, b, c, rest, rfl⟩ := threeStrings_shape row h3
  have hc := commentCell_strings _ h6
  cases hd : timeParse a <;> cases hcy : env.ParseFloat b <;> cases ht : env.ParseFloat c <;>
    simp [rowParses, rowObservation, index, assertString, orReturn, bind,
      Except.bind, pure, Except.pure, Except.isOk, Except.toBool, hd, hcy, ht, hc, convertRow]

theorem convertRows_ok (env : Env) (rows : List (List Any))
    (h3 : ∀ row ∈ rows, threeStrings row = true)
    (h6 : ∀ row ∈ rows, commentIsString row = true)
    (hp : ∀ row ∈ rows, rowParses env row = true) (t : team) :
    ∃ obs, rows.map (rowObservation env) = obs.map some
      ∧ convertRows env rows t = .ok ⟨t.name, t.data ++ obs⟩ := by
  induction rows generalizing t with
  | nil => exact ⟨[], rfl, by simp [convertRows]⟩
  | cons row rest ih =>
    obtain ⟨d, hd1, hd2⟩ := (convertRow_strings env row (h3 row (by simp)) (h6 row (by simp))).2
      (hp row (by simp))
    obtain ⟨obs, ho1, ho2⟩ := ih (fun r hr => h3 r (by simp [hr])) (fun r hr => h6 r (by simp [hr]))
      (fun r hr => hp r (by simp [hr])) ⟨t.name, t.data ++ [d]⟩
    refine ⟨d :: obs, by simp [hd1, ho1], ?_⟩
    simp [convertRows, hd2, bind, Except.bind, ho2]

theorem convertRows_error (env : Env) (rows : List (List Any))
    (h3 : ∀ row ∈ rows, threeStrings row = true)
    (h6 : ∀ row ∈ rows, commentIsString row = true)
    (hp : ∃ row ∈ rows, rowParses env row = false) (t : team) :
    ∃ e, convertRows env rows t = .error (.error e) := by
  induction rows generalizing t with
  | nil => simp at hp
  | cons row rest ih =>
    have hrow := convertRow_strings env row (h3 row (by simp)) (h6 row (by simp))
    cases hb : rowParses env row with
    | false =>
      obtain ⟨e, he⟩ := hrow.1 hb
      exact ⟨e, by simp [convertRows, he, bind, Except.bind]⟩
    | true =>
      obtain ⟨d, _, hd2⟩ := hrow.2 hb
      obtain ⟨r, hr, hrp⟩ := hp
      have hr2 : r ∈ rest := by
        rcases List.mem_cons.1 hr with h | h
        · subst h; rw [hb] at hrp; cases hrp
        · exact h
      obtain ⟨e, he⟩ := ih (fun r hr => h3 r (by simp [hr])) (fun r hr => h6 r (by simp [hr]))
        ⟨r, hr2, hrp⟩ ⟨t.name, t.data ++ [d]⟩
      exact ⟨e, by simp [convertRows, hd2, bind, Except.bind, he]⟩


/-- C5 (as stated, refuted): every row has strings in its first three cells and
its date and numbers parse, yet the call returns no team: it panics on the sixth
cell, which holds a number. -/
theorem getTeamData_numeric_comment :
    (∀ row ∈ numericCommentRows, threeStrings row = true)
    ∧ (∀ row ∈ numericCommentRows, rowParses demoEnv row = true)
    ∧ getTeamData demoEnv "DevOps" (constSheet numericCommentRows)
        = .error (.panic "interface conversion: interface is not string") := by
  refine ⟨by decide, by decide, rfl⟩

/-- C5 (amended): for rows whose first three cells are strings and whose sixth
cell, when present, is a string, the call returns an error and no team as soon
as one row's date or one of its two numbers does not parse; and when every row
parses it returns the team of that name holding one observation per row, in row
order, with the row's date, cycle time and throughput, and as comment the sixth
cell when the row has more than five cells and the empty string otherwise. -/
theorem getTeamData_rows (env : Env) (name : String) (rows : List (List Any))
    (h3 : ∀ row ∈ rows, threeStrings row = true)
    (h6 : ∀ row ∈ rows, commentIsString row = true) :
    ((∃ row ∈ rows, rowParses env row = false) →
      ∃ e, getTeamData env name (constSheet rows) = .error (.error e))
    ∧ ((∀ row ∈ rows, rowParses env row = true) →
      ∃ t, getTeamData env name (constSheet rows) = .ok t ∧ t.name = name
        ∧ t.data.length = rows.length
        ∧ t.data.map some = rows.map (rowObservation env)) := by
  rw [getTeamData_constSheet]
  refine ⟨fun hp => convertRows_error env rows h3 h6 hp _, fun hp => ?_⟩
  obtain ⟨obs, ho1, ho2⟩ := convertRows_ok env rows h3 h6 hp (newTeam name)
  refine ⟨_, ho2, rfl, ?_, ?_⟩
  · have := congrArg List.length ho1
    simpa [newTeam] using this.symm
  · simpa [newTeam] using ho1.symm

/-- C5 (amended), on two rows that parse, the second one with a comment, and on
the same rows followed by one whose date does not exist. -/
theorem getTeamData_rows_witness :
    ((∀ row ∈ demoRows, threeStrings row = true)
      ∧ (∀ row ∈ demoRows, commentIsString row = true)
      ∧ (∀ row ∈ demoRows, rowParses demoEnv row = true)
      ∧ ∃ t, getTeamData demoEnv "DevOps" (constSheet demoRows) = .ok t ∧ t.name = "DevOps"
          ∧ t.data.length = demoRows.length
          ∧ t.data.map some = demoRows.map (rowObservation demoEnv))
    ∧ ((∃ row ∈ demoRows ++ [[.str "2023-02-30", .str "1", .str "1"]],
          rowParses demoEnv row = false)
      ∧ ∃ e, getTeamData demoEnv "DevOps"
          (constSheet (demoRows ++ [[.str "2023-02-30", .str "1", .str "1"]]))
            = .error (.error e)) :=
  ⟨⟨by decide, by decide, by decide,
      (getTeamData_rows demoEnv "DevOps" demoRows (by decide) (by decide)).2 (by decide)⟩,
    ⟨by decide,
      (getTeamData_rows demoEnv "DevOps" _ (by decide) (by decide)).1 (by decide)⟩⟩

/-- C6 (the code at the failing input): when the source returns a row that ends
after its date cell, `getTeamData` panics on `row[1]` whatever the environment,
and the panic ends the refresh cycle of the configured teams without a result. -/
theorem getTeamData_short_row (env : Env) (now : Time) (s : Store) :
    getTeamData env "DevOps" (constSheet shortRows) = .error (.panic "index out of range")
    ∧ getTeamData env "DevOps" (constSheet [[]]) = .error (.panic "index out of range")
    ∧ refreshCycle env (constSheet shortRows) teams now s
        = .error (.panic "index out of range") := by
  refine ⟨rfl, rfl, rfl⟩

/-! ## The refresh cycle -/

/-- The row loop keeps the name of the team. -/
theorem convertRows_name (env : Env) (rows : List (List Any)) (t t1 : team)
    (h : convertRows env rows t = .ok t1) : t1.name = t.name := by
  induction rows generalizing t with
  | nil => simp only [convertRows, Except.ok.injEq] at h; rw [← h]
  | cons row rest ih =>
    simp only [convertRows, bind, Except.bind] at h
    cases hr : convertRow env row with
    | error e => rw [hr] at h; cases h
    | ok d =>
      rw [hr] at h
      exact ih ⟨t.name, t.data ++ [d]⟩ h

/-- A team returned by `getTeamData` bears the name it was asked for. -/
theorem getTeamData_name (env : Env) (name : String) (sheet : Service) (t : team)
    (h : getTeamData env name sheet = .ok t) : t.name = name := by
  simp only [getTeamData] at h
  cases hg : sheet.get env.sheetId (name ++ "!" ++ cellStart ++ ":" ++ cellStop) with
  | error e => rw [hg] at h; cases h
  | ok values =>
    rw [hg] at h
    simp only at h
    split_ifs at h
    · exact convertRows_name env values _ t h
    · simp only [Except.ok.injEq] at h; rw [← h]; rfl

/-- The loop over the teams, when no retrieval panics: the charts of the teams
whose retrieval succeeded are appended, in order. -/
theorem refreshTeams_eq (env : Env) (sheet : Service) (names : List String)
    (charts : List teamChart)
    (hp : ∀ name ∈ names, ∀ p, getTeamData env name sheet ≠ .error (.panic p)) :
    refreshTeams env sheet names charts =
      .ok (charts ++ names.filterMap (fun name =>
        (getTeamData env name sheet).toOption.map
          (fun t => ⟨t.renderer env.tzLocal, name⟩))) := by
  induction names generalizing charts with
  | nil => simp [refreshTeams]
  | cons name rest ih =>
    have ih2 := fun c => ih c (fun n hn => hp n (by simp [hn]))
    cases hg : getTeamData env name sheet with
    | ok t =>
      have hn := getTeamData_name env name sheet t hg
      simp [refreshTeams, hg, ih2, Except.toOption, hn]
    | error e =>
      cases e with
      | error msg => simp [refreshTeams, hg, ih2, Except.toOption]
      | panic p => exact absurd hg (hp name (by simp) p)

/-- When no retrieval panics: after one refresh cycle, whatever the chart list
held before, the chart list holds exactly one entry per configured team whose
retrieval returned a team, in configured order, titled with the team's name and
rendering the retrieved team; a team whose retrieval returned an error has no
entry and does not stop the later teams. -/
theorem refreshCycle_charts (env : Env) (sheet : Service) (names : List String) (now : Time)
    (prior : Store)
    (hp : ∀ name ∈ names, ∀ p, getTeamData env name sheet ≠ .error (.panic p)) :
    ∃ s, refreshCycle env sheet names now prior = .ok s
      ∧ s.charts.map teamChart.title
          = names.filter (fun name => (getTeamData env name sheet).isOk)
      ∧ s.charts = names.filterMap (fun name =>
          (getTeamData env name sheet).toOption.map
            (fun t => ⟨t.renderer env.tzLocal, name⟩))
      ∧ s.lastUpdate = now := by
  refine ⟨⟨now, names.filterMap (fun name =>
    (getTeamData env name sheet).toOption.map (fun t => ⟨t.renderer env.tzLocal, name⟩))⟩,
    ?_, ?_, rfl, rfl⟩
  · simp [refreshCycle, refreshTeams_eq env sheet names [] hp, bind, Except.bind, pure,
      Except.pure]
  · clear hp
    show List.map teamChart.title (names.filterMap (fun name =>
        (getTeamData env name sheet).toOption.map (fun t => ⟨t.renderer env.tzLocal, name⟩)))
      = names.filter (fun name => (getTeamData env name sheet).isOk)
    induction names with
    | nil => rfl
    | cons name rest ih =>
      rw [List.filterMap_cons, List.filter_cons]
      cases hg : getTeamData env name sheet with
      | error e =>
        have h1 : (Except.error e : Except Abort team).toOption = none := rfl
        have h2 : (Except.error e : Except Abort team).isOk = false := rfl
        simp only [h1, h2, Option.map_none']
        exact ih
      | ok t =>
        have h1 : (Except.ok t : Except Abort team).toOption = some t := rfl
        have h2 : (Except.ok t : Except Abort team).isOk = true := rfl
        simp only [h1, h2, Option.map_some', List.map_cons, if_true]
        rw [ih]

/-- The retrievals of the example source: DevOps succeeds, VSS fails, neither panics. -/
theorem demoSheet_no_panic :
    ∀ name ∈ teams, ∀ p, getTeamData demoEnv name demoSheet ≠ .error (.panic p) := by
  intro name hn p
  simp only [teams, List.mem_cons, List.mem_singleton, List.not_mem_nil, or_false] at hn
  rcases hn with rfl | rfl
  · have h : (getTeamData demoEnv "DevOps" demoSheet).isOk = true := by rfl
    intro h2; rw [h2] at h; cases h
  · have h : getTeamData demoEnv "VSS" demoSheet
        = .error (.error "unable to retrieve data from sheet: unavailable") := by rfl
    rw [h]; intro h2; cases h2

/-- The scenario of the specification: the retrieval of "VSS" returns an error
and that of "DevOps" succeeds, and the list held a chart of "VSS" before; the
new list has the single entry "DevOps". -/
theorem refreshCycle_charts_witness :
    (∀ name ∈ teams, ∀ p, getTeamData demoEnv name demoSheet ≠ .error (.panic p))
    ∧ (getTeamData demoEnv "VSS" demoSheet).isOk = false
    ∧ (getTeamData demoEnv "DevOps" demoSheet).isOk = true
    ∧ priorStore.charts.map teamChart.title = ["VSS"]
    ∧ ∃ s, refreshCycle demoEnv demoSheet teams zeroTime priorStore = .ok s
        ∧ s.charts.map teamChart.title = ["DevOps"] := by
  obtain ⟨s, h1, h2, _⟩ :=
    refreshCycle_charts demoEnv demoSheet teams zeroTime priorStore demoSheet_no_panic
  refine ⟨demoSheet_no_panic, by rfl, by rfl, by rfl, s, h1, ?_⟩
  rw [h2]
  rfl

/-- C4 (the code at the failing input): the sheet of "DevOps" holds a row that
ends after its date cell and the retrieval of "VSS" succeeds, so the teams whose
retrieval succeeded are exactly "VSS"; but the retrieval of "DevOps" panics, the
cycle ends with that panic and publishes no list, and "VSS" is never processed:
step by step, the refresh goroutine ends with an empty chart list and nothing in
the process moves afterwards. -/
theorem refreshCycle_malformed_first (now : Time) (s : Store) :
    getTeamData demoEnv "DevOps" malformedFirstSheet = .error (.panic "index out of range")
    ∧ (getTeamData demoEnv "VSS" malformedFirstSheet).isOk = true
    ∧ teams.filter (fun name => (getTeamData demoEnv name malformedFirstSheet).isOk) = ["VSS"]
    ∧ refreshCycle demoEnv malformedFirstSheet teams now s
        = .error (.panic "index out of range")
    ∧ ∃ w, run demoEnv teams initWorld
          [.refresh malformedFirstSheet now, .refresh malformedFirstSheet now,
           .refresh malformedFirstSheet now] = some w
        ∧ w.refresher = .crashed ∧ w.locked = true ∧ w.charts = []
        ∧ ∀ a, step demoEnv teams w a = none :=
  ⟨rfl, rfl, rfl, rfl, _, rfl, rfl, rfl, rfl, fun a => by cases a <;> rfl⟩

/-! ## The page -/

/-- Appending the elements of a list of strings one after the other to a string
is appending their concatenation. -/
theorem foldl_append_join (l : List String) (init : String) :
    l.foldl (fun r x => r ++ x) init = init ++ String.join l := by
  have key : ∀ (l : List String) (a b : String),
      l.foldl (fun r x => r ++ x) (a ++ b) = a ++ l.foldl (fun r x => r ++ x) b := by
    intro l
    induction l with
    | nil => intro a b; rfl
    | cons x xs ih => intro a b; simp only [List.foldl_cons, String.append_assoc, ih]
  have := key l init ""
  simpa [String.join] using this

/-- The bytes of writes followed by further writes. -/
theorem responseBytes_append (a b : List String) :
    responseBytes (a ++ b) = responseBytes a ++ responseBytes b := by
  simp only [responseBytes, String.join, List.foldl_append]
  exact foldl_append_join b _

/-- The bytes of a response that starts with one write. -/
theorem responseBytes_cons (x : String) (l : List String) :
    responseBytes (x :: l) = x ++ responseBytes l := by
  have := responseBytes_append [x] l
  simpa [responseBytes, String.join] using this

/-- The loop of `serveHTTP` adds, for each chart in stored order, the write of
its heading and the write of its rendering. -/
theorem foldl_serveChart (env : Env) (charts : List teamChart) (res : List String) :
    charts.foldl (serveChart env) res =
      res ++ charts.flatMap (fun c => [heading c.title, env.renderSVG c.renderer]) := by
  induction charts generalizing res with
  | nil => simp
  | cons c rest ih => simp [List.foldl_cons, ih, serveChart]

/-- The bytes of the writes of the loop are the sections of the charts. -/
theorem responseBytes_sections (env : Env) (charts : List teamChart) :
    responseBytes (charts.flatMap (fun c => [heading c.title, env.renderSVG c.renderer]))
      = String.join (charts.map (fun c =>
          "<h2>" ++ c.title ++ "</h2>" ++ env.renderSVG c.renderer)) := by
  induction charts with
  | nil => rfl
  | cons c rest ih =>
    rw [List.flatMap_cons, responseBytes_append, ih, List.map_cons]
    have h : String.join ((("<h2>" ++ c.title ++ "</h2>" ++ env.renderSVG c.renderer))
        :: rest.map (fun c => "<h2>" ++ c.title ++ "</h2>" ++ env.renderSVG c.renderer))
        = ("<h2>" ++ c.title ++ "</h2>" ++ env.renderSVG c.renderer)
          ++ String.join (rest.map (fun c =>
            "<h2>" ++ c.title ++ "</h2>" ++ env.renderSVG c.renderer)) :=
      responseBytes_cons _ _
    rw [h]
    simp [responseBytes_cons, responseBytes, String.join, heading, String.append_assoc]

/-- The writes of the loop, by position: the heading of chart `i` is write `2 * i`
and its rendering is write `2 * i + 1`. -/
theorem flatMap_pair_getElem? {α β : Type} (f g : α → β) (l : List α) (i : Nat) :
    (l.flatMap (fun c => [f c, g c]))[2 * i]? = l[i]?.map f
    ∧ (l.flatMap (fun c => [f c, g c]))[2 * i + 1]? = l[i]?.map g := by
  induction l generalizing i with
  | nil => simp
  | cons c rest ih =>
    cases i with
    | zero => simp
    | succ j =>
      have h1 : 2 * (j + 1) = 2 * j + 2 := by omega
      rw [h1]
      simpa using ih j

/-- The loop makes two writes per chart. -/
theorem flatMap_pair_length {α β : Type} (f g : α → β) (l : List α) :
    (l.flatMap (fun c => [f c, g c])).length = 2 * l.length := by
  induction l with
  | nil => rfl
  | cons c rest ih => simp [List.flatMap_cons, ih]; omega

/-- C10: `serveHTTP` makes these writes, in this order: the HTML head; the
explanatory paragraph ending in "Data updated at", the last update and the
closing of the paragraph; for each chart in stored order the heading
"<h2>title</h2>" and then the chart's rendering; and "</body>". The bytes of
the page are these texts one after the other, so each chart has exactly one
heading, the one of chart `i` being write `2 + 2 * i`, followed by its
rendering. Before the first cycle the writes are the head, the paragraph with
the zero time (1 January of year 1, UTC) and "</body>". The package variables are
left as they were. -/
theorem serveHTTP_page (env : Env) (s : Store) :
    (serveHTTP env s).1 =
      ["<!DOCTYPE html><html><head><title>team metrics</title><link rel=\"stylesheet\" type=\"text/css\" href=\"/main.css\"></head><body>",
       "\n<p><ul><li><b>cycle time</b> measures how long it takes an individual task to go through the process (lower is better)<li><b>throughput</b> measures the total amount of work delivered in a certain time period (higher is better)</ul></p>\n<p>Data updated at "
         ++ env.timeString s.lastUpdate ++ "</p>\n"]
      ++ s.charts.flatMap (fun c => ["<h2>" ++ c.title ++ "</h2>", env.renderSVG c.renderer])
      ++ ["</body>"]
    ∧ responseBytes (serveHTTP env s).1 =
      "<!DOCTYPE html><html><head><title>team metrics</title><link rel=\"stylesheet\" type=\"text/css\" href=\"/main.css\"></head><body>"
      ++ ("\n<p><ul><li><b>cycle time</b> measures how long it takes an individual task to go through the process (lower is better)<li><b>throughput</b> measures the total amount of work delivered in a certain time period (higher is better)</ul></p>\n<p>Data updated at "
         ++ env.timeString s.lastUpdate ++ "</p>\n")
      ++ String.join (s.charts.map (fun c =>
          "<h2>" ++ c.title ++ "</h2>" ++ env.renderSVG c.renderer))
      ++ "</body>"
    ∧ (serveHTTP env s).1.length = 3 + 2 * s.charts.length
    ∧ (∀ i : Fin s.charts.length,
        (serveHTTP env s).1[2 + 2 * i.val]? = some ("<h2>" ++ (s.charts.get i).title ++ "</h2>")
        ∧ (serveHTTP env s).1[2 + 2 * i.val + 1]?
            = some (env.renderSVG (s.charts.get i).renderer))
    ∧ (serveHTTP env initialStore).1 =
      ["<!DOCTYPE html><html><head><title>team metrics</title><link rel=\"stylesheet\" type=\"text/css\" href=\"/main.css\"></head><body>",
       "\n<p><ul><li><b>cycle time</b> measures how long it takes an individual task to go through the process (lower is better)<li><b>throughput</b> measures the total amount of work delivered in a certain time period (higher is better)</ul></p>\n<p>Data updated at "
         ++ env.timeString ⟨-62135596800, UTC⟩ ++ "</p>\n",
       "</body>"]
    ∧ (Time.civil ⟨-62135596800, UTC⟩ = (1, 1, 1) ∧ initialStore.charts = [])
    ∧ (serveHTTP env s).2 = s := by
  have hw : (serveHTTP env s).1 =
      [pageHead, pageIntro env s.lastUpdate]
      ++ s.charts.flatMap (fun c => [heading c.title, env.renderSVG c.renderer])
      ++ ["</body>"] := by
    simp only [serveHTTP, foldl_serveChart]
    rfl
  have hhead : pageHead = "<!DOCTYPE html><html><head><title>team metrics</title><link rel=\"stylesheet\" type=\"text/css\" href=\"/main.css\"></head><body>" := by
    decide
  have hintro : ∀ t, pageIntro env t = "\n<p><ul><li><b>cycle time</b> measures how long it takes an individual task to go through the process (lower is better)<li><b>throughput</b> measures the total amount of work delivered in a certain time period (higher is better)</ul></p>\n<p>Data updated at "
         ++ env.timeString t ++ "</p>\n" := fun t => rfl
  have hheading : (fun c : teamChart => [heading c.title, env.renderSVG c.renderer])
      = (fun c => ["<h2>" ++ c.title ++ "</h2>", env.renderSVG c.renderer]) := rfl
  refine ⟨?_, ?_, ?_, ?_, ?_, ⟨by decide, rfl⟩, rfl⟩
  · rw [hw, hhead, hintro, hheading]
  · rw [hw, responseBytes_append, responseBytes_append, responseBytes_sections, hhead, hintro]
    simp [responseBytes, String.join]
  · rw [hw]
    simp only [List.length_append, List.length_cons, List.length_nil, flatMap_pair_length]
    omega
  · intro i
    rw [hw, hheading]
    have hp := flatMap_pair_getElem? (fun c : teamChart => "<h2>" ++ c.title ++ "</h2>")
      (fun c => env.renderSVG c.renderer) s.charts i.val
    have hlen : (s.charts.flatMap (fun c =>
        ["<h2>" ++ c.title ++ "</h2>", env.renderSVG c.renderer])).length
          = 2 * s.charts.length := flatMap_pair_length _ _ _
    have hi : s.charts[i.val]? = some (s.charts.get i) := List.getElem?_eq_getElem i.isLt
    rw [hi] at hp
    constructor
    · rw [List.append_assoc, List.getElem?_append_right (by
          simp only [List.length_cons, List.length_nil]
          omega), List.getElem?_append_left
        (by
          simp only [hlen, List.length_cons, List.length_nil]
          have := i.isLt
          omega)]
      simpa using hp.1
    · rw [List.append_assoc, List.getElem?_append_right (by
          simp only [List.length_cons, List.length_nil]
          omega),
        List.getElem?_append_left (by
          simp only [hlen, List.length_cons, List.length_nil]
          have := i.isLt
          omega)]
      have : 2 + 2 * i.val + 1 - [pageHead, pageIntro env s.lastUpdate].length
          = 2 * i.val + 1 := by
        simp only [List.length_cons, List.length_nil]
        omega
      rw [this]
      exact hp.2
  · have h0 := hintro zeroTime
    simp only [serveHTTP, foldl_serveChart, initialStore]
    rw [hhead, h0]
    rfl

set_option maxRecDepth 20000 in
/-- The page for two charts updated at second 1672617600, byte for byte, with a
renderer that shows a chart as the number of its series. -/
theorem serveHTTP_page_example :
    responseBytes (serveHTTP pageEnv pageStore).1 =
      "<!DOCTYPE html><html><head><title>team metrics</title><link rel=\"stylesheet\" type=\"text/css\" href=\"/main.css\"></head><body>\n<p><ul><li><b>cycle time</b> measures how long it takes an individual task to go through the process (lower is better)<li><b>throughput</b> measures the total amount of work delivered in a certain time period (higher is better)</ul></p>\n<p>Data updated at 1672617600</p>\n<h2>DevOps</h2><svg>3</svg><h2>VSS</h2><svg>3</svg></body>" := by
  decide

/-! ## The refresh goroutine and the request handlers -/

/-- What is known of a handler depends on the chart list and the history only. -/
theorem handlerOk_congr (w w1 : World) (h : Handler) (hc : w1.charts = w.charts)
    (hh : w1.history = w.history) (ho : handlerOk w h) : handlerOk w1 h := by
  simp only [handlerOk, World.complete, hc, hh] at ho ⊢
  exact ho

/-- What is known of a handler that does not hold the mutex survives any change
of the chart list, as long as complete lists stay complete. -/
theorem handlerOk_idle (w w1 : World) (h : Handler) (hh : h.pc.holds = false)
    (hm : ∀ L, w.complete L → w1.complete L) (ho : handlerOk w h) : handlerOk w1 h := by
  unfold handlerOk at ho ⊢
  cases hpc : h.pc <;> simp only [hpc, HandlerPc.holds] at hh ho ⊢ <;>
    first | exact ho | exact hm _ ho | cases hh

/-- The invariant holds at the start. -/
theorem inv_init : Inv initWorld := by
  refine ⟨?_, ?_, ?_, ?_, ?_⟩
  · simp [initWorld, RefreshPc.holds, HandlerPc.holds]
  · intro _ k; rfl
  · intro j k h; simp [initWorld, HandlerPc.holds] at h
  · intro _; exact Or.inl rfl
  · intro k; simp [initWorld, handlerOk]

/-- The refresh goroutine, holding the mutex, changes the chart list and keeps
holding the mutex. -/
theorem inv_refresher_holding (w : World) (hi : Inv w) (hr : w.refresher.holds = true)
    (charts : List teamChart) (pc : RefreshPc) (hpc : pc.holds = true) :
    Inv { w with charts := charts, refresher := pc } := by
  obtain ⟨hl, he, h1, _, hh⟩ := hi
  refine ⟨?_, ?_, h1, ?_, ?_⟩
  · simp only [hpc, true_or, iff_true]
    exact hl.2 (Or.inl hr)
  · intro _ k; exact he hr k
  · intro h; simp only [hpc] at h; cases h
  · intro k
    exact handlerOk_idle w _ _ (he hr k) (fun L hL => hL) (hh k)

/-- The refresh goroutine, not holding the mutex, sets `lastUpdate` or moves on
without taking the mutex. -/
theorem inv_refresher_idle (w : World) (hi : Inv w) (hr : w.refresher.holds = false)
    (lastUpdate : Time) (pc : RefreshPc) (hpc : pc.holds = false) :
    Inv { w with lastUpdate := lastUpdate, refresher := pc } := by
  obtain ⟨hl, _, h1, hid, hh⟩ := hi
  refine ⟨?_, ?_, h1, ?_, ?_⟩
  · simp only [hpc, Bool.false_eq_true, false_or]
    rw [hl]; simp only [hr, Bool.false_eq_true, false_or]
  · intro h; simp only [hpc] at h; cases h
  · intro _; exact hid hr
  · intro k; exact handlerOk_congr w _ _ rfl rfl (hh k)

/-- The refresh goroutine takes the free mutex. -/
theorem inv_refresher_lock (w : World) (hi : Inv w) (hlk : w.locked = false) :
    Inv { w with locked := true, refresher := .reset } := by
  obtain ⟨hl, _, h1, _, hh⟩ := hi
  have hno : ∀ k, (w.handlers k).pc.holds = false := by
    intro k
    cases hk : (w.handlers k).pc.holds
    · rfl
    · have := hl.2 (Or.inr ⟨k, hk⟩)
      rw [hlk] at this; cases this
  refine ⟨?_, ?_, h1, ?_, ?_⟩
  · simp [RefreshPc.holds]
  · intro _ k; exact hno k
  · intro h; simp [RefreshPc.holds] at h
  · intro k; exact handlerOk_congr w _ _ rfl rfl (hh k)

/-- The refresh goroutine releases the mutex; the list it has built is complete. -/
theorem inv_refresher_unlock (w : World) (hi : Inv w) (hr : w.refresher.holds = true) :
    Inv { w with locked := false, refresher := .stamp,
                 history := w.history ++ [w.charts] } := by
  obtain ⟨_, he, h1, _, hh⟩ := hi
  refine ⟨?_, ?_, h1, ?_, ?_⟩
  · simp only [RefreshPc.holds, Bool.false_eq_true, false_or, false_iff, not_exists]
    intro k; rw [he hr k]; simp
  · intro h; simp [RefreshPc.holds] at h
  · intro _; exact Or.inr (by simp)
  · intro k
    refine handlerOk_idle w _ _ (he hr k) (fun L hL => ?_) (hh k)
    rcases hL with hL | hL
    · exact Or.inl hL
    · exact Or.inr (by simp [hL])

/-- A step of the refresh goroutine keeps the invariant. -/
theorem refreshStep_inv (env : Env) (names : List String) (sheet : Service) (now : Time)
    (w w1 : World) (hs : refreshStep env names sheet now w = some w1) (hi : Inv w) :
    Inv w1 := by
  unfold refreshStep at hs
  split at hs
  · split at hs
    · cases hs
    · rename_i hlk
      simp only [Option.some.injEq] at hs
      subst hs
      exact inv_refresher_lock w hi (by simpa using hlk)
  · rename_i hpc
    simp only [Option.some.injEq] at hs
    subst hs
    exact inv_refresher_holding w hi (by rw [hpc]; rfl) _ _ rfl
  · rename_i hpc
    simp only [Option.some.injEq] at hs
    subst hs
    have := inv_refresher_holding w hi (by rw [hpc]; rfl) w.charts .unlock rfl
    exact this
  · rename_i hpc
    have hr : w.refresher.holds = true := by rw [hpc]; rfl
    split at hs <;> simp only [Option.some.injEq] at hs <;> subst hs
    · exact inv_refresher_holding w hi hr _ _ rfl
    · exact inv_refresher_holding w hi hr w.charts _ rfl
    · exact inv_refresher_holding w hi hr w.charts _ rfl
  · rename_i hpc
    simp only [Option.some.injEq] at hs
    subst hs
    exact inv_refresher_unlock w hi (by rw [hpc]; rfl)
  · rename_i hpc
    simp only [Option.some.injEq] at hs
    subst hs
    exact inv_refresher_idle w hi (by rw [hpc]; rfl) _ _ rfl
  · rename_i hpc
    simp only [Option.some.injEq] at hs
    subst hs
    exact inv_refresher_idle w hi (by rw [hpc]; rfl) w.lastUpdate _ rfl
  · cases hs

/-- A handler moves without taking or releasing the mutex. -/
theorem inv_handler_move (w : World) (hi : Inv w) (k : Nat) (h : Handler)
    (hsame : h.pc.holds = (w.handlers k).pc.holds) (ho : handlerOk w h) :
    Inv { w with locked := w.locked, handlers := Function.update w.handlers k h } := by
  obtain ⟨hl, he, h1, hid, hh⟩ := hi
  have hu : ∀ j, ((Function.update w.handlers k h) j).pc.holds = (w.handlers j).pc.holds := by
    intro j
    by_cases hj : j = k
    · subst hj; simp [hsame]
    · simp [Function.update_noteq hj]
  refine ⟨?_, ?_, ?_, hid, ?_⟩
  · simp only [hu]; exact hl
  · simp only [hu]; exact he
  · simp only [hu]; exact h1
  · intro j
    by_cases hj : j = k
    · subst hj
      simp only [Function.update_same]
      exact handlerOk_congr w _ _ rfl rfl ho
    · simp only [Function.update_noteq hj]
      exact handlerOk_congr w _ _ rfl rfl (hh j)

/-- A handler takes the free mutex. -/
theorem inv_handler_lock (w : World) (hi : Inv w) (k : Nat) (h : Handler)
    (hlk : w.locked = false) (hpc : h.pc.holds = true) (ho : handlerOk w h) :
    Inv { w with locked := true, handlers := Function.update w.handlers k h } := by
  obtain ⟨hl, _, _, hid, hh⟩ := hi
  have hfree : w.refresher.holds = false ∧ ∀ j, (w.handlers j).pc.holds = false := by
    have hn : ¬ (w.refresher.holds = true ∨ ∃ j, (w.handlers j).pc.holds = true) := by
      rw [← hl, hlk]; simp
    constructor
    · cases hr : w.refresher.holds
      · rfl
      · exact absurd (Or.inl hr) hn
    · intro j
      cases hj : (w.handlers j).pc.holds
      · rfl
      · exact absurd (Or.inr ⟨j, hj⟩) hn
  have hu : ∀ j, ((Function.update w.handlers k h) j).pc.holds = true → j = k := by
    intro j hj
    by_contra hne
    rw [Function.update_noteq hne, hfree.2 j] at hj
    cases hj
  refine ⟨?_, ?_, ?_, hid, ?_⟩
  · simp only [true_iff]
    exact Or.inr ⟨k, by simp [hpc]⟩
  · intro hr; simp only [hfree.1] at hr; cases hr
  · intro i j hi2 hj; rw [hu i hi2, hu j hj]
  · intro j
    by_cases hj : j = k
    · subst hj
      simp only [Function.update_same]
      exact handlerOk_congr w _ _ rfl rfl ho
    · simp only [Function.update_noteq hj]
      exact handlerOk_congr w _ _ rfl rfl (hh j)

/-- A handler releases the mutex. -/
theorem inv_handler_unlock (w : World) (hi : Inv w) (k : Nat) (h : Handler)
    (hk : (w.handlers k).pc.holds = true) (hpc : h.pc.holds = false) (ho : handlerOk w h) :
    Inv { w with locked := false, handlers := Function.update w.handlers k h } := by
  obtain ⟨_, he, h1, hid, hh⟩ := hi
  have hr : w.refresher.holds = false := by
    cases hr : w.refresher.holds
    · rfl
    · rw [he hr k] at hk; cases hk
  have hu : ∀ j, ((Function.update w.handlers k h) j).pc.holds = false := by
    intro j
    by_cases hj : j = k
    · subst hj; simp [hpc]
    · rw [Function.update_noteq hj]
      cases hjh : (w.handlers j).pc.holds
      · rfl
      · exact absurd (h1 j k hjh hk) hj
  refine ⟨?_, ?_, ?_, hid, ?_⟩
  · simp [hr, hu]
  · intro _ j; exact hu j
  · intro i j hi2; rw [hu i] at hi2; cases hi2
  · intro j
    by_cases hj : j = k
    · subst hj
      simp only [Function.update_same]
      exact handlerOk_congr w _ _ rfl rfl ho
    · simp only [Function.update_noteq hj]
      exact handlerOk_congr w _ _ rfl rfl (hh j)

/-- A step of a handler keeps the invariant. -/
theorem handlerStep_inv (env : Env) (w : World) (k : Nat) (locked : Bool) (h : Handler)
    (hs : handlerStep env w (w.handlers k) = some (locked, h)) (hi : Inv w) :
    Inv { w with locked := locked, handlers := Function.update w.handlers k h } := by
  have hk := hi.handler k
  unfold handlerStep at hs
  unfold handlerOk at hk
  split at hs
  · -- head
    rename_i hpc
    simp only [Option.some.injEq, Prod.mk.injEq] at hs
    obtain ⟨rfl, rfl⟩ := hs
    simp only [hpc] at hk
    exact inv_handler_move w hi k _ (by simp [hpc, HandlerPc.holds]) (by simp [handlerOk, hk])
  · -- intro
    rename_i hpc
    simp only [Option.some.injEq, Prod.mk.injEq] at hs
    obtain ⟨rfl, rfl⟩ := hs
    simp only [hpc] at hk
    exact inv_handler_move w hi k _ (by simp [hpc, HandlerPc.holds]) (by simp [handlerOk, hk])
  · -- lock
    rename_i hpc
    split at hs
    · cases hs
    · rename_i hlk
      simp only [Option.some.injEq, Prod.mk.injEq] at hs
      obtain ⟨rfl, rfl⟩ := hs
      simp only [hpc] at hk
      exact inv_handler_lock w hi k _ (by simpa using hlk) rfl (by simp [handlerOk, hk])
  · -- range
    rename_i hpc
    simp only [Option.some.injEq, Prod.mk.injEq] at hs
    obtain ⟨rfl, rfl⟩ := hs
    simp only [hpc] at hk
    exact inv_handler_move w hi k _ (by simp [hpc, HandlerPc.holds]) (by simp [handlerOk, hk])
  · -- title
    rename_i i n hpc
    simp only [hpc] at hk
    obtain ⟨hn, hin, hseen⟩ := hk
    split at hs
    · rename_i hlt
      have hget : w.charts[i]? = some (w.charts[i]) :=
        List.getElem?_eq_getElem (by omega)
      rw [hget] at hs
      simp only [Option.some.injEq, Prod.mk.injEq] at hs
      obtain ⟨rfl, rfl⟩ := hs
      exact inv_handler_move w hi k _ (by simp [hpc, HandlerPc.holds])
        (by
          simp only [handlerOk, hn, hseen, true_and]
          exact ⟨by omega, _, hget, rfl⟩)
    · rename_i hlt
      simp only [Option.some.injEq, Prod.mk.injEq] at hs
      obtain ⟨rfl, rfl⟩ := hs
      have : i = w.charts.length := by omega
      exact inv_handler_move w hi k _ (by simp [hpc, HandlerPc.holds])
        (by simp [handlerOk, hseen, this])
  · -- render
    rename_i i n title hpc
    simp only [hpc] at hk
    obtain ⟨hn, hin, hseen, c, hc, hct⟩ := hk
    rw [hc] at hs
    simp only [Option.some.injEq, Prod.mk.injEq] at hs
    obtain ⟨rfl, rfl⟩ := hs
    refine inv_handler_move w hi k _ (by simp [hpc, HandlerPc.holds]) ?_
    have hlt : i < w.charts.length := by omega
    have hci : w.charts[i] = c := by
      have := List.getElem?_eq_getElem hlt
      rw [hc] at this
      exact (Option.some.inj this).symm
    have hc2 : (⟨c.renderer, title⟩ : teamChart) = c := by
      cases c; simp only at hct; simp [hct]
    simp only [handlerOk, hn, hseen, hc2, true_and]
    refine ⟨by omega, ?_⟩
    rw [← hci, List.take_succ, List.getElem?_eq_getElem hlt]
    rfl
  · -- unlock
    rename_i hpc
    simp only [Option.some.injEq, Prod.mk.injEq] at hs
    obtain ⟨rfl, rfl⟩ := hs
    simp only [hpc] at hk
    have hheld : (w.handlers k).pc.holds = true := by rw [hpc]; rfl
    have hr : w.refresher.holds = false := by
      cases hr : w.refresher.holds
      · rfl
      · rw [hi.excl hr k] at hheld; cases hheld
    refine inv_handler_unlock w hi k _ hheld rfl ?_
    simp only [handlerOk, hk]
    exact hi.idle hr
  · -- tail
    rename_i hpc
    simp only [Option.some.injEq, Prod.mk.injEq] at hs
    obtain ⟨rfl, rfl⟩ := hs
    simp only [hpc] at hk
    exact inv_handler_move w hi k _ (by simp [hpc, HandlerPc.holds]) (by simpa [handlerOk] using hk)
  · cases hs
  · cases hs

/-- Every step of the process keeps the invariant. -/
theorem step_inv (env : Env) (names : List String) (w w1 : World) (a : Action)
    (hs : step env names w a = some w1) (hi : Inv w) : Inv w1 := by
  cases a with
  | refresh sheet now => exact refreshStep_inv env names sheet now w w1 hs hi
  | handle k =>
    simp only [step] at hs
    split at hs
    · cases hs
    · split at hs
      · rename_i locked h hstep
        simp only [Option.some.injEq] at hs
        subst hs
        exact handlerStep_inv env w k locked h hstep hi
      · cases hs

/-- Every world a run reaches from a world with the invariant has the invariant. -/
theorem run_inv (env : Env) (names : List String) (acts : List Action) (w w1 : World)
    (hr : run env names w acts = some w1) (hi : Inv w) : Inv w1 := by
  induction acts generalizing w with
  | nil => simp only [run, Option.some.injEq] at hr; subst hr; exact hi
  | cons a rest ih =>
    simp only [run] at hr
    split at hr
    · rename_i w2 hstep
      exact ih w2 hr (step_inv env names w w2 a hstep hi)
    · cases hr

/-- A run only adds complete lists to the record. -/
theorem run_history (env : Env) (names : List String) (acts : List Action) (w w1 : World)
    (hr : run env names w acts = some w1) : ∃ more, w1.history = w.history ++ more := by
  induction acts generalizing w with
  | nil => simp only [run, Option.some.injEq] at hr; subst hr; exact ⟨[], by simp⟩
  | cons a rest ih =>
    simp only [run] at hr
    split at hr
    · rename_i w2 hstep
      obtain ⟨more, hm⟩ := ih w2 hr
      have h2 : ∃ m2, w2.history = w.history ++ m2 := by
        cases a with
        | refresh sheet now =>
          simp only [step, refreshStep] at hstep
          split at hstep
          · split at hstep
            · cases hstep
            · simp only [Option.some.injEq] at hstep; subst hstep; exact ⟨[], by simp⟩
          · simp only [Option.some.injEq] at hstep; subst hstep; exact ⟨[], by simp⟩
          · simp only [Option.some.injEq] at hstep; subst hstep; exact ⟨[], by simp⟩
          · split at hstep <;> simp only [Option.some.injEq] at hstep <;> subst hstep <;>
              exact ⟨[], by simp⟩
          · simp only [Option.some.injEq] at hstep; subst hstep; exact ⟨[w.charts], rfl⟩
          · simp only [Option.some.injEq] at hstep; subst hstep; exact ⟨[], by simp⟩
          · simp only [Option.some.injEq] at hstep; subst hstep; exact ⟨[], by simp⟩
          · cases hstep
        | handle k =>
          simp only [step] at hstep
          split at hstep
          · cases hstep
          · split at hstep
            · simp only [Option.some.injEq] at hstep; subst hstep; exact ⟨[], by simp⟩
            · cases hstep
      obtain ⟨m2, hm2⟩ := h2
      exact ⟨m2 ++ more, by rw [hm, hm2, List.append_assoc]⟩
    · cases hr

/-- Every step keeps what is known of the list under construction. -/
theorem step_built (env : Env) (names : List String) (w w1 : World) (a : Action)
    (hs : step env names w a = some w1) (hb : built names w) : built names w1 := by
  obtain ⟨hh, hc⟩ := hb
  cases a with
  | refresh sheet now =>
    simp only [step, refreshStep] at hs
    split at hs
    · split at hs
      · cases hs
      · simp only [Option.some.injEq] at hs; subst hs; exact ⟨hh, trivial⟩
    · simp only [Option.some.injEq] at hs; subst hs
      exact ⟨hh, [], rfl, by simp⟩
    · rename_i hpc
      simp only [Option.some.injEq] at hs; subst hs
      simp only [hpc] at hc
      obtain ⟨processed, hn, hsub⟩ := hc
      refine ⟨hh, ?_⟩
      simp only [List.append_nil] at hn
      simpa [hn] using hsub
    · rename_i name rest hpc
      simp only [hpc] at hc
      obtain ⟨processed, hn, hsub⟩ := hc
      split at hs
      · rename_i t hg
        simp only [Option.some.injEq] at hs; subst hs
        refine ⟨hh, processed ++ [name], by simp [hn], ?_⟩
        simp only [List.map_append, List.map_cons, List.map_nil,
          getTeamData_name env name sheet t hg]
        exact List.Sublist.append hsub (List.Sublist.refl _)
      · simp only [Option.some.injEq] at hs; subst hs
        exact ⟨hh, processed ++ [name], by simp [hn],
          hsub.trans (List.sublist_append_left _ _)⟩
      · simp only [Option.some.injEq] at hs; subst hs; exact ⟨hh, trivial⟩
    · rename_i hpc
      simp only [Option.some.injEq] at hs; subst hs
      simp only [hpc] at hc
      refine ⟨?_, trivial⟩
      intro L hL
      simp only [List.mem_append, List.mem_singleton] at hL
      rcases hL with hL | rfl
      · exact hh L hL
      · exact hc
    · simp only [Option.some.injEq] at hs; subst hs; exact ⟨hh, trivial⟩
    · simp only [Option.some.injEq] at hs; subst hs; exact ⟨hh, trivial⟩
    · cases hs
  | handle k =>
    simp only [step] at hs
    split at hs
    · cases hs
    · split at hs
      · simp only [Option.some.injEq] at hs; subst hs; exact ⟨hh, hc⟩
      · cases hs

/-- Every world of a run has the property `built`. -/
theorem run_built (env : Env) (names : List String) (acts : List Action) (w w1 : World)
    (hr : run env names w acts = some w1) (hb : built names w) : built names w1 := by
  induction acts generalizing w with
  | nil => simp only [run, Option.some.injEq] at hr; subst hr; exact hb
  | cons a rest ih =>
    simp only [run] at hr
    split at hr
    · rename_i w2 hstep
      exact ih w2 hr (step_built env names w w2 a hstep hb)
    · cases hr

/-- C9: in every world reached by any interleaving of the steps of the refresh
goroutine and of any number of request handlers, each handler has iterated over
an initial part of one complete chart list (the initial empty list, or the list
the refresh goroutine had built when it left its loop over the teams in one
cycle, whose titles are a sublist of the configured names); while the handler is
between `Lock` and `Unlock` the refresh goroutine is not and the chart list is
that complete list, not a cleared or partly rebuilt one; once the handler has
left its loop it has iterated over the whole of that list; and no handler
panics. -/
theorem handler_sees_complete_list (env : Env) (names : List String) (acts : List Action)
    (w : World) (hr : run env names initWorld acts = some w) (k : Nat) :
    (w.handlers k).pc ≠ .panicked
    ∧ ((w.handlers k).pc.holds = true → w.refresher.holds = false)
    ∧ ∃ L, w.complete L
        ∧ (L.map teamChart.title).Sublist names
        ∧ (∃ rest, (w.handlers k).seen ++ rest = L)
        ∧ ((w.handlers k).pc.holds = true → w.charts = L)
        ∧ ((w.handlers k).pc.pastLoop = true → (w.handlers k).seen = L) := by
  have hi := run_inv env names acts initWorld w hr inv_init
  have hb := run_built env names acts initWorld w hr
    ⟨by simp [initWorld], by simp [initWorld]⟩
  have hsub : ∀ L, w.complete L → (L.map teamChart.title).Sublist names := by
    intro L hL
    rcases hL with rfl | hL
    · simp
    · exact hb.1 L hL
  have hex : (w.handlers k).pc.holds = true → w.refresher.holds = false := by
    intro hk
    cases hrh : w.refresher.holds
    · rfl
    · rw [hi.excl hrh k] at hk; cases hk
  have hk := hi.handler k
  unfold handlerOk at hk
  refine ⟨?_, hex, ?_⟩
  · intro hp; simp only [hp] at hk
  · cases hpc : (w.handlers k).pc <;> simp only [hpc] at hk hex
    case head =>
      exact ⟨[], Or.inl rfl, by simp, ⟨[], by simp [hk]⟩, by simp [HandlerPc.holds],
        by simp [HandlerPc.pastLoop]⟩
    case intro =>
      exact ⟨[], Or.inl rfl, by simp, ⟨[], by simp [hk]⟩, by simp [HandlerPc.holds],
        by simp [HandlerPc.pastLoop]⟩
    case lock =>
      exact ⟨[], Or.inl rfl, by simp, ⟨[], by simp [hk]⟩, by simp [HandlerPc.holds],
        by simp [HandlerPc.pastLoop]⟩
    case range =>
      have hc := hi.idle (hex rfl)
      exact ⟨w.charts, hc, hsub _ hc, ⟨w.charts, by simp [hk]⟩, fun _ => rfl,
        by simp [HandlerPc.pastLoop]⟩
    case title i n =>
      have hc := hi.idle (hex rfl)
      exact ⟨w.charts, hc, hsub _ hc, ⟨w.charts.drop i, by rw [hk.2.2, List.take_append_drop]⟩,
        fun _ => rfl, by simp [HandlerPc.pastLoop]⟩
    case render i n t =>
      have hc := hi.idle (hex rfl)
      exact ⟨w.charts, hc, hsub _ hc,
        ⟨w.charts.drop i, by rw [hk.2.2.1, List.take_append_drop]⟩,
        fun _ => rfl, by simp [HandlerPc.pastLoop]⟩
    case unlock =>
      have hc := hi.idle (hex rfl)
      exact ⟨w.charts, hc, hsub _ hc, ⟨[], by simp [hk]⟩, fun _ => rfl, fun _ => hk⟩
    case tail =>
      exact ⟨_, hk, hsub _ hk, ⟨[], by simp⟩, by simp [HandlerPc.holds], fun _ => rfl⟩
    case done =>
      exact ⟨_, hk, hsub _ hk, ⟨[], by simp⟩, by simp [HandlerPc.holds], fun _ => rfl⟩

/-- C9, on a schedule in which two refresh cycles and two requests interleave:
handler 0 has returned after iterating over the list ["DevOps"], which both
cycles built. -/
theorem handler_sees_complete_list_witness :
    ∃ w, run demoEnv teams initWorld demoSchedule = some w
      ∧ (w.handlers 0).pc = .done
      ∧ (w.handlers 0).seen.map teamChart.title = ["DevOps"]
      ∧ (w.handlers 0).pc ≠ .panicked
      ∧ ((w.handlers 0).pc.holds = true → w.refresher.holds = false)
      ∧ ∃ L, w.complete L
          ∧ (L.map teamChart.title).Sublist teams
          ∧ (∃ rest, (w.handlers 0).seen ++ rest = L)
          ∧ ((w.handlers 0).pc.holds = true → w.charts = L)
          ∧ ((w.handlers 0).pc.pastLoop = true → (w.handlers 0).seen = L) :=
  ⟨_, rfl, rfl, rfl, handler_sees_complete_list demoEnv teams demoSchedule _ rfl 0⟩


end TeamMetrics
